import Mathlib

/-!
Symbol index of the joy compiler (`golang/indexer`, `golang/def/iface`)

A shallow embedding of the declaration index built by `indexer.New` and of its
query surface, together with the interface definition of `def/iface`.

Conventions of the embedding:

* The input is a program that the loader has already parsed and type checked.
  Every AST node carries what the package's `info` resolves for it:
  `info.ObjectOf(name)` for declared names, `info.TypeOf(expr)` for the
  type expressions the pass asks about.
* A program the loader reports errors on can hold names and types that
  `info` does not resolve, on which the pass crashes. The section `Loaded`
  embeds `New` for such programs, with the crash as an outcome, and
  `Loaded.New_ofProgram` shows that it agrees with `New` where everything
  resolves.
* A `*types.Declaration` is a pointer. Declarations live in a store
  (`heap`, in allocation order) and tables hold addresses (`Ptr`), so that
  two keys can share one declaration and a write through one key is seen
  through the other.
* A Go `map[string]T` is a finite table with one entry per key (`Map`).
  Where the source ranges over a map, the order is chosen by a `seed`.
* `error` values are the message strings the source formats.
-/

namespace Joy

/-! ## Go library functions used by the source -/

/-- Go `strings.TrimLeft(s, string(c))`: drop every leading `c`. -/
def stringsTrimLeft (s : String) (c : Char) : String :=
  String.mk (s.data.dropWhile (fun x => x == c))

/-- Go `strings.TrimRight(s, string(c))`: drop every trailing `c`. -/
def stringsTrimRight (s : String) (c : Char) : String :=
  String.mk ((s.data.reverse.dropWhile (fun x => x == c)).reverse)

/-- Go `strings.Trim(s, string(c))`: drop every leading and trailing `c`. -/
def stringsTrim (s : String) (c : Char) : String :=
  stringsTrimRight (stringsTrimLeft s c) c

/-- The double quote character that delimits `Path.Value`. -/
def doubleQuote : Char := Char.ofNat 34

/-- The part of a character list after its last `/` (the whole list when there is none). -/
def afterLastSlash : List Char → List Char → List Char
  | [], acc => acc.reverse
  | c :: cs, acc => if c == '/' then afterLastSlash cs [] else afterLastSlash cs (c :: acc)

/-- Go `path.Base`: the last element of a slash separated path. Trailing
slashes are removed first; the empty path gives `.`, a path of slashes only
gives `/`. -/
def pathBase (path : String) : String :=
  if path == "" then "."
  else
    let stripped := (path.data.reverse.dropWhile (fun x => x == '/')).reverse
    let last := afterLastSlash stripped []
    if last == [] then "/" else String.mk last

/-! ## Finite tables -/

/-- A Go `map[string]α`: at most one entry per key. -/
abbrev Map (α : Type) := List (String × α)

/-- The value `m[k]`, `none` when the key is absent (Go's zero value `nil`). -/
def Map.get {α : Type} (m : Map α) (k : String) : Option α :=
  List.lookup k m

/-- The assignment `m[k] = v`: overwrites the entry of `k` when there is one. -/
def Map.set {α : Type} (m : Map α) (k : String) (v : α) : Map α :=
  (k, v) :: m.filter (fun e => e.1 != k)

/-- Insert `x` at position `n` of a list (at the end when `n` is too large). -/
def insertAt {α : Type} : Nat → α → List α → List α
  | 0, x, l => x :: l
  | _ + 1, x, [] => [x]
  | n + 1, x, y :: l => y :: insertAt n x l

/-- The order in which a `range` over a map visits its entries. Go leaves it
unspecified: `seed` picks one of the orderings of the entries. -/
def rangeOrder {α : Type} : Nat → List α → List α
  | _, [] => []
  | seed, x :: l => insertAt (seed % (l.length + 1)) x (rangeOrder (seed / (l.length + 1)) l)

/-! ## The type checker's model (`go/types`) as far as the source consults it -/

/-- The dynamic class of a `go/types.Object`. -/
inductive ObjKind
  | Var | Func | Const | TypeName | PkgName | Label | Builtin | Nil
  deriving DecidableEq, Repr

/-- A `go/types.Object`: `Pkg()` (absent for universe symbols), `String()`
(the canonical id) and `Exported()`. -/
structure Object where
  kind : ObjKind
  Pkg : Option String
  str : String
  Exported : Bool
  deriving DecidableEq, Repr

/-- A `go/types.Type`: its `String()` form and whether its dynamic type is
`*types.Interface`. -/
structure GoType where
  str : String
  isInterface : Bool
  deriving DecidableEq, Repr

/-! ## The syntax tree (`go/ast`) as far as the pass inspects it -/

/-- The type expression of a type spec (`y.Type`) with `info.TypeOf` of it. -/
inductive TypeExpr
  /-- `*ast.InterfaceType`: the names of each field of `Methods.List`. -/
  | InterfaceType (methods : List (List String)) (typeOf : GoType)
  /-- every other expression (struct type, identifier, pointer, ...). -/
  | Other (typeOf : GoType)
  deriving DecidableEq, Repr

/-- `ast.Spec` -/
inductive Spec
  /-- `*ast.ValueSpec`: each of `Names` with `info.ObjectOf(name)`. -/
  | ValueSpec (names : List (String × Object))
  /-- `*ast.TypeSpec`: `Name.Name`, `info.ObjectOf(Name)`, `info.TypeOf(Name)`, `Type`. -/
  | TypeSpec (name : String) (obj : Object) (typeOf : GoType) (type : TypeExpr)
  /-- `*ast.ImportSpec`: `Name` (nil when unaliased) and `Path.Value`, quotes included. -/
  | ImportSpec (name : Option String) (pathValue : String)
  deriving DecidableEq, Repr

/-- `*ast.FuncDecl` -/
structure FuncDecl where
  /-- `t.Name.Name` -/
  name : String
  /-- `info.ObjectOf(t.Name)` -/
  obj : Object
  /-- `t.Type.Params.List`: the names of each field -/
  params : List (List String)
  /-- `t.Recv`: nil for a function, else `info.TypeOf(t.Recv.List[0].Type)` -/
  recv : Option GoType
  deriving DecidableEq, Repr

/-- `ast.Decl`: the top-level declarations of a file. -/
inductive Decl
  | FuncDecl (f : FuncDecl)
  | GenDecl (specs : List Spec)
  /-- `*ast.BadDecl`, with its source range `From`, `To`. -/
  | BadDecl (From : Nat) (To : Nat)
  deriving DecidableEq, Repr

/-- `loader.PackageInfo`: `Pkg.Path()` and `Files` (each a list of `Decls`). -/
structure PackageInfo where
  Path : String
  Files : List (List Decl)
  deriving DecidableEq, Repr

/-- `loader.Program`: `AllPackages`, in the order the `range` visits them. -/
structure Program where
  AllPackages : List PackageInfo
  deriving DecidableEq, Repr

/-! ## `golang/indexer` -/

/-- The address of a `types.Declaration` in the store. -/
abbrev Ptr := Nat

/-- `types.Declaration` -/
structure Declaration where
  Exported : Bool
  From : String
  Name : String
  ID : String
  Node : Decl
  Params : List String
  deriving DecidableEq, Repr

/-- `receiver`: the receiver's static type and the method's declaration. -/
structure receiver where
  Typ : GoType
  Function : Ptr
  deriving DecidableEq, Repr

/-- `Index`, with the store its declaration pointers point into. The
`program` field, which none of the queries modelled here reads, is left out. -/
structure Index where
  heap : List Declaration
  declarations : Map Ptr
  runtime : Map Ptr
  imports : Map (Map String)
  interfaces : Map GoType
  receivers : Map (List receiver)
  methods : Map (List Ptr)
  deriving DecidableEq, Repr

/-- The local tables of `New` while the pass runs. -/
structure State where
  heap : List Declaration
  declarations : Map Ptr
  interfaces : Map GoType
  runtime : Map Ptr
  imports : Map (Map String)
  receivers : Map (List receiver)
  deriving DecidableEq, Repr

/-- The empty tables `New` starts from. -/
def State.empty : State :=
  { heap := [], declarations := [], interfaces := [], runtime := [], imports := [], receivers := [] }

/-- The `exported` local of the `*ast.FuncDecl` case. -/
def funcExported (t : FuncDecl) : Bool :=
  if t.recv.isSome then false
  else if t.name == "main" then true
  else t.obj.Exported

/-- The `&types.Declaration` literal of the `*ast.FuncDecl` case. -/
def funcDeclaration (packagePath : String) (decl : Decl) (t : FuncDecl) : Declaration :=
  { Exported := funcExported t, From := packagePath, Name := t.name, ID := t.obj.str, Node := decl,
    Params := t.params.flatten }

/-- The `&types.Declaration` literal of the `*ast.ValueSpec` case. -/
def valueDeclaration (packagePath : String) (decl : Decl) (name : String × Object) : Declaration :=
  { Exported := name.2.Exported, From := packagePath, Name := name.1, ID := name.2.str, Node := decl,
    Params := [] }

/-- The `&types.Declaration` literal of the `*ast.TypeSpec` case. -/
def typeDeclaration (packagePath : String) (decl : Decl) (name : String) (obj : Object) :
    Declaration :=
  { Exported := obj.Exported, From := packagePath, Name := name, ID := obj.str, Node := decl,
    Params := [] }

/-- The `*ast.FuncDecl` case of `New`. -/
def funcStep (runtimePath packagePath : String) (decl : Decl) (t : FuncDecl) (st : State) : State :=
  let name := t.name
  let id := t.obj.str
  -- declarations[id] = &types.Declaration(...)
  let p : Ptr := st.heap.length
  let heap := st.heap ++ [funcDeclaration packagePath decl t]
  let declarations := st.declarations.set id p
  -- receivers[name] = append(receivers[name], &receiver(...)); declarations[id] is p
  let receivers :=
    match t.recv with
    | some recvType =>
        st.receivers.set name (((st.receivers.get name).getD []) ++ [{ Typ := recvType, Function := p }])
    | none => st.receivers
  let runtime := if runtimePath == packagePath then st.runtime.set name p else st.runtime
  { st with heap := heap, declarations := declarations, receivers := receivers, runtime := runtime }

/-- One name of the `*ast.ValueSpec` case. -/
def valueStep (packagePath : String) (decl : Decl) (st : State) (name : String × Object) : State :=
  let id := name.2.str
  let p : Ptr := st.heap.length
  { st with
    heap := st.heap ++ [valueDeclaration packagePath decl name]
    declarations := st.declarations.set id p }

/-- The assignment `d.Exported = false` through the pointer `p`. -/
def unexport (heap : List Declaration) (p : Ptr) : List Declaration :=
  match heap.get? p with
  | some d => heap.set p { d with Exported := false }
  | none => heap

/-- The `*ast.TypeSpec` case of `New`. After `declarations[id] = &types.Declaration(...)`
every later read of `declarations[id]` in the case yields that pointer `p`. -/
def typeStep (packagePath : String) (decl : Decl) (st : State)
    (name : String) (obj : Object) (typeof : GoType) (type : TypeExpr) : Except String State :=
  let id := obj.str
  let p : Ptr := st.heap.length
  let heap := st.heap ++ [typeDeclaration packagePath decl name obj]
  let declarations := st.declarations.set id p
  -- alias to typeof
  let declarations := declarations.set typeof.str p
  match type with
  | .InterfaceType _ ifaceTypeOf =>
      -- never export an interface
      let heap := unexport heap p
      if ifaceTypeOf.isInterface then
        let interfaces := st.interfaces.set id ifaceTypeOf
        let interfaces := interfaces.set typeof.str ifaceTypeOf
        .ok { st with heap := heap, declarations := declarations, interfaces := interfaces }
      else
        .error "expected interface type to be gotypes.Interface"
  | .Other _ => .ok { st with heap := heap, declarations := declarations }

/-- The `*ast.ImportSpec` case of `New`. -/
def importStep (packagePath : String) (st : State) (name : Option String) (pathValue : String) : State :=
  let table := (st.imports.get packagePath).getD []
  let depPath := stringsTrim pathValue doubleQuote
  let name :=
    match name with
    | some n => n
    | none => pathBase depPath
  { st with imports := st.imports.set packagePath (table.set name depPath) }

/-- The body of the loop over `t.Specs` of a `*ast.GenDecl`. -/
def specStep (packagePath : String) (decl : Decl) (st : State) : Spec → Except String State
  | .ValueSpec names => .ok (names.foldl (valueStep packagePath decl) st)
  | .TypeSpec name obj typeof type => typeStep packagePath decl st name obj typeof type
  | .ImportSpec name pathValue => .ok (importStep packagePath st name pathValue)

/-- The body of the loop over `file.Decls`: the type switch on the declaration. -/
def declStep (runtimePath packagePath : String) (st : State) (decl : Decl) : Except String State :=
  match decl with
  | .FuncDecl t => .ok (funcStep runtimePath packagePath decl t st)
  | .GenDecl specs => specs.foldlM (specStep packagePath decl) st
  | .BadDecl _ _ => .error "unhandled type *ast.BadDecl"

/-- The loop that regroups the receivers by the string of the receiver type. -/
def regroup (entries : List (String × List receiver)) : Map (List Ptr) :=
  entries.foldl
    (fun methods entry =>
      entry.2.foldl
        (fun methods recv =>
          let typeof := recv.Typ.str
          methods.set typeof (((methods.get typeof).getD []) ++ [recv.Function]))
        methods)
    []

/-- `New`. `getRuntimePath` is the result of the source's `getRuntimePath()`,
which reads the build environment; `seed` fixes the order of the `range`
over the receivers table. -/
def New (getRuntimePath : Except String String) (program : Program) (seed : Nat) :
    Except String Index := do
  let runtimePath ← getRuntimePath
  let st ← program.AllPackages.foldlM
    (fun st info =>
      info.Files.foldlM
        (fun st file => file.foldlM (declStep runtimePath info.Path) st)
        st)
    State.empty
  let methods := regroup (rangeOrder seed st.receivers)
  pure
    { heap := st.heap
      declarations := st.declarations
      imports := st.imports
      runtime := st.runtime
      interfaces := st.interfaces
      receivers := st.receivers
      methods := methods }

/-- `Index.FindByID` -/
def Index.FindByID (i : Index) (id : String) : Option Ptr :=
  i.declarations.get (stringsTrimLeft id '*')

/-- `Index.Imports`; the nil map of an unknown package has no entries. -/
def Index.Imports (i : Index) (packagePath : String) : Map String :=
  (i.imports.get packagePath).getD []

/-- `Index.Runtime` -/
def Index.Runtime (i : Index) (name : String) : Option Ptr :=
  i.runtime.get name

/-- `Index.ImplementedBy`; `implements` is `gotypes.Implements`. -/
def Index.ImplementedBy (implements : GoType → GoType → Bool) (i : Index) (id method : String) :
    List Ptr :=
  match i.interfaces.get id with
  | none => []
  | some iface =>
      (((i.receivers.get method).getD []).filter (fun recv => implements recv.Typ iface)).map
        (fun recv => recv.Function)

/-- `Index.Methods`; a table entry is a non-nil slice. -/
def Index.Methods (i : Index) (id : String) : List Ptr :=
  match i.methods.get id with
  | some methods => methods
  | none =>
      match i.methods.get ("*" ++ id) with
      | some methods => methods
      | none => []

/-- The declaration a pointer of the index points to. -/
def Index.deref (i : Index) (p : Ptr) : Option Declaration :=
  i.heap.get? p

/-- `getDependency`: the canonical id of a symbol, or the empty string for
"no id". `obj` is `none` for the nil object. -/
def getDependency (obj : Option Object) : String :=
  match obj with
  | none => ""
  | some o =>
      match o.Pkg with
      | none => ""
      | some _ =>
          match o.kind with
          | .Var => o.str
          | .Func => o.str
          | .Const => o.str
          | .TypeName => o.str
          | _ => ""

/-- `Index.FindByObject` -/
def Index.FindByObject (i : Index) (obj : Option Object) : Option Ptr :=
  let id := getDependency obj
  if id == "" then none else i.FindByID id

/-- `*ast.Ident`, with `info.ObjectOf` of it (`none` when the model resolves
no symbol). -/
structure Ident where
  Name : String
  obj : Option Object
  deriving DecidableEq, Repr

/-- `ast.Node` as `FindByNode` tells the kinds apart. -/
inductive Node
  | Ident (n : Ident)
  /-- `*ast.StarExpr` with its operand `X`. -/
  | StarExpr (X : Node)
  /-- `*ast.SelectorExpr` with its operand `X` and the selected identifier `Sel`. -/
  | SelectorExpr (X : Node) (Sel : Ident)
  /-- every other node kind, also the nil node. -/
  | Other
  deriving DecidableEq, Repr

/-- `Index.FindByIdent` -/
def Index.FindByIdent (i : Index) (n : Ident) : Option Ptr :=
  match n.obj with
  | none => none
  | some obj => i.FindByObject (some obj)

/-- `Index.FindByNode`: the type switch on the node; the selector case calls
`FindByNode` again on the node `t.Sel`. -/
def Index.FindByNode (i : Index) : Node → Option Ptr
  | .Ident t => i.FindByIdent t
  | .StarExpr X => i.FindByNode X
  | .SelectorExpr _ Sel => i.FindByNode (.Ident Sel)
  | .Other => none
termination_by n => sizeOf n
decreasing_by
  · simp_wf
  · simp_wf
    rename_i X _
    cases X <;> simp

/-! ## `golang/def/iface` -/

/-- Modelled from the spec: `golang/index.Index`, the index the definitions
query, is not among the sources. Of it the interface definition only needs
the per-package alias tables behind `GetImports`. -/
structure DefIndex where
  imports : Map (Map String)
  deriving DecidableEq, Repr

/-- A call either returns a value, returns an `error`, or panics. -/
inductive Result (α : Type)
  | ok (value : α)
  | error (msg : String)
  | panic (msg : String)
  deriving DecidableEq, Repr

/-- `*ast.TypeSpec` as `NewInterface` reads it: `Name.Name` and `Type`. -/
structure TypeSpecNode where
  Name : String
  Type_ : TypeExpr
  deriving DecidableEq, Repr

/-- `ifacedef` -/
structure ifacedef where
  exported : Bool
  path : String
  name : String
  id : String
  index : DefIndex
  methods : List String
  node : TypeSpecNode
  kind : GoType
  processed : Bool
  methodDeps : Map Ptr
  imports : Map String
  deriving DecidableEq, Repr

/-- `NewInterface`. `obj` is `info.ObjectOf(n.Name)`; the type expression of
`n` carries `info.TypeOf(n.Type)`. -/
def NewInterface (index : DefIndex) (obj : Object) (n : TypeSpecNode) : Result ifacedef :=
  match obj.Pkg with
  | none => .panic "invalid memory address or nil pointer dereference"
  | some packagePath =>
      let id := packagePath ++ " " ++ n.Name
      match n.Type_ with
      | .Other _ => .panic "interface conversion: ast.Expr is not *ast.InterfaceType"
      | .InterfaceType fields typeOf =>
          let methods := fields.flatten
          if typeOf.isInterface then
            .ok
              { exported := obj.Exported
                path := packagePath
                name := n.Name
                id := id
                index := index
                node := n
                methods := methods
                kind := typeOf
                processed := false
                methodDeps := []
                imports := [] }
          else
            .error "NewInterface: expected n.Type to be an interface"

/-- `ifacedef.Exported` -/
def ifacedef.Exported (d : ifacedef) : Bool :=
  d.exported

/-- `ifacedef.process`: the definition after the call and the returned
error. The lines it logs are no part of the definition. The message of the
error ends in the Go type of the expression, which is not modelled. -/
def ifacedef.process (d : ifacedef) : ifacedef × Option String :=
  match d.node.Type_ with
  | .Other _ => (d, some "process: expected an interface, but received another expression")
  | .InterfaceType _ _ => ({ d with processed := true }, none)

/-- `ifacedef.Dependencies`: the returned definitions and error, and the
definition after the call. The error of `process` is dropped, as in the source. -/
def ifacedef.Dependencies (d : ifacedef) : (List Ptr × Option String) × ifacedef :=
  let d := if !d.processed then d.process.1 else d
  (([], none), d)

/-- `Index.GetImports` of `golang/index`: the alias table of a package. -/
def DefIndex.GetImports (i : DefIndex) (path : String) : Map String :=
  (i.imports.get path).getD []

/-- The loop `for alias, path := range src ( imports[alias] = path )`, the
entries of `src` visited in the given order. -/
def copyInto (src : List (String × String)) (imports : Map String) : Map String :=
  src.foldl (fun imports e => imports.set e.1 e.2) imports

/-- `ifacedef.Imports`: the returned table and the definition after the call.
The two seeds fix the orders of the two `range` loops. -/
def ifacedef.Imports (d : ifacedef) (seedLocal seedIndex : Nat) : Map String × ifacedef :=
  let imports : Map String := []
  let imports := copyInto (rangeOrder seedLocal d.imports) imports
  let imports := copyInto (rangeOrder seedIndex (d.index.GetImports d.path)) imports
  (imports, d)

/-! ## `New` on a program loaded with errors

A file holds a `*ast.BadDecl` only when it did not parse, and the loader then
hands over a program the type checker reported errors on. In such a program
`info.ObjectOf` and `info.TypeOf` can come back nil (no object is recorded
for a redeclared name), and a method call on the nil result crashes the
pass. This section embeds `New` once more with every such lookup optional
and with the panic as a third outcome. -/

namespace Loaded

/-- `*ast.FuncDecl` of a program loaded with errors. -/
structure FuncDecl where
  /-- `t.Name.Name` -/
  name : String
  /-- `info.ObjectOf(t.Name)`, nil when the checker recorded no object -/
  obj : Option Object
  /-- `t.Type.Params.List`: the names of each field -/
  params : List (List String)
  /-- `t.Recv`: nil for a function, else `info.TypeOf(field.Type)` of each
  field of `t.Recv.List` -/
  recv : Option (List (Option GoType))
  deriving DecidableEq, Repr

/-- `ast.Spec` of a program loaded with errors. A missing
`info.TypeOf(iface)` fails the assertion to `*gotypes.Interface` like any
other type and is given as a `TypeExpr` whose type is no interface. -/
inductive Spec
  | ValueSpec (names : List (String × Option Object))
  | TypeSpec (name : String) (obj : Option Object) (typeOf : Option GoType) (type : TypeExpr)
  | ImportSpec (name : Option String) (pathValue : String)
  deriving DecidableEq, Repr

/-- `ast.Decl` of a program loaded with errors. -/
inductive Decl
  | FuncDecl (f : FuncDecl)
  | GenDecl (specs : List Spec)
  | BadDecl (From : Nat) (To : Nat)
  deriving DecidableEq, Repr

/-- `loader.PackageInfo` -/
structure PackageInfo where
  Path : String
  Files : List (List Decl)
  deriving DecidableEq, Repr

/-- `loader.Program` -/
structure Program where
  AllPackages : List PackageInfo
  deriving DecidableEq, Repr

/-- `types.Declaration` -/
structure Declaration where
  Exported : Bool
  From : String
  Name : String
  ID : String
  Node : Decl
  Params : List String
  deriving DecidableEq, Repr

/-- `receiver`; the static type is nil when `info.TypeOf` found none. -/
structure receiver where
  Typ : Option GoType
  Function : Ptr
  deriving DecidableEq, Repr

/-- `Index` -/
structure Index where
  heap : List Declaration
  declarations : Map Ptr
  runtime : Map Ptr
  imports : Map (Map String)
  interfaces : Map GoType
  receivers : Map (List receiver)
  methods : Map (List Ptr)
  deriving DecidableEq, Repr

/-- The local tables of `New` while the pass runs. -/
structure State where
  heap : List Declaration
  declarations : Map Ptr
  interfaces : Map GoType
  runtime : Map Ptr
  imports : Map (Map String)
  receivers : Map (List receiver)
  deriving DecidableEq, Repr

/-- The empty tables `New` starts from. -/
def State.empty : State :=
  { heap := [], declarations := [], interfaces := [], runtime := [], imports := [], receivers := [] }

/-- A loop whose body can return early with an error or crash: the first
outcome that is not `ok` ends it. -/
def foldlR {σ α : Type} (f : σ → α → Result σ) : σ → List α → Result σ
  | s, [] => .ok s
  | s, x :: l =>
      match f s x with
      | .ok s1 => foldlR f s1 l
      | .error msg => .error msg
      | .panic msg => .panic msg

/-- The `*ast.FuncDecl` case of `New`. -/
def funcStep (runtimePath packagePath : String) (decl : Decl) (t : FuncDecl) (st : State) :
    Result State :=
  match t.obj with
  | none =>
      -- id := obj.String() on the nil object
      .panic "invalid memory address or nil pointer dereference"
  | some obj =>
      let name := t.name
      let id := obj.str
      let params := t.params.flatten
      let exported :=
        if t.recv.isSome then false
        else if name == "main" then true
        else obj.Exported
      let p : Ptr := st.heap.length
      let heap := st.heap ++
        [{ Exported := exported, From := packagePath, Name := name, ID := id, Node := decl,
           Params := params }]
      let declarations := st.declarations.set id p
      let runtime := if runtimePath == packagePath then st.runtime.set name p else st.runtime
      match t.recv with
      | none =>
          .ok { st with heap := heap, declarations := declarations, runtime := runtime }
      | some [] =>
          -- recv := t.Recv.List[0]
          .panic "index out of range"
      | some (recvType :: _) =>
          let receivers :=
            st.receivers.set name
              (((st.receivers.get name).getD []) ++ [{ Typ := recvType, Function := p }])
          .ok
            { st with
              heap := heap, declarations := declarations, receivers := receivers,
              runtime := runtime }

/-- One name of the `*ast.ValueSpec` case. -/
def valueStep (packagePath : String) (decl : Decl) (st : State)
    (name : String × Option Object) : Result State :=
  match name.2 with
  | none => .panic "invalid memory address or nil pointer dereference"
  | some obj =>
      let id := obj.str
      let p : Ptr := st.heap.length
      .ok
        { st with
          heap := st.heap ++
            [{ Exported := obj.Exported, From := packagePath, Name := name.1, ID := id,
               Node := decl, Params := [] }]
          declarations := st.declarations.set id p }

/-- The assignment `d.Exported = false` through the pointer `p`. -/
def unexport (heap : List Declaration) (p : Ptr) : List Declaration :=
  match heap.get? p with
  | some d => heap.set p { d with Exported := false }
  | none => heap

/-- The `*ast.TypeSpec` case of `New`. -/
def typeStep (packagePath : String) (decl : Decl) (st : State)
    (name : String) (obj : Option Object) (typeof : Option GoType) (type : TypeExpr) :
    Result State :=
  match obj with
  | none =>
      -- id := obj.String() on the nil object
      .panic "invalid memory address or nil pointer dereference"
  | some obj =>
      let id := obj.str
      let p : Ptr := st.heap.length
      let heap := st.heap ++
        [{ Exported := obj.Exported, From := packagePath, Name := name, ID := id, Node := decl,
           Params := [] }]
      let declarations := st.declarations.set id p
      match typeof with
      | none =>
          -- declarations[typeof.String()] on the nil type
          .panic "invalid memory address or nil pointer dereference"
      | some typeof =>
          let declarations := declarations.set typeof.str p
          match type with
          | .InterfaceType _ ifaceTypeOf =>
              let heap := unexport heap p
              if ifaceTypeOf.isInterface then
                let interfaces := st.interfaces.set id ifaceTypeOf
                let interfaces := interfaces.set typeof.str ifaceTypeOf
                .ok { st with heap := heap, declarations := declarations, interfaces := interfaces }
              else
                .error "expected interface type to be gotypes.Interface"
          | .Other _ => .ok { st with heap := heap, declarations := declarations }

/-- The `*ast.ImportSpec` case of `New`. -/
def importStep (packagePath : String) (st : State) (name : Option String) (pathValue : String) :
    State :=
  let table := (st.imports.get packagePath).getD []
  let depPath := stringsTrim pathValue doubleQuote
  let name :=
    match name with
    | some n => n
    | none => pathBase depPath
  { st with imports := st.imports.set packagePath (table.set name depPath) }

/-- The body of the loop over `t.Specs` of a `*ast.GenDecl`. -/
def specStep (packagePath : String) (decl : Decl) (st : State) : Spec → Result State
  | .ValueSpec names => foldlR (valueStep packagePath decl) st names
  | .TypeSpec name obj typeof type => typeStep packagePath decl st name obj typeof type
  | .ImportSpec name pathValue => .ok (importStep packagePath st name pathValue)

/-- The body of the loop over `file.Decls`: the type switch on the declaration. -/
def declStep (runtimePath packagePath : String) (st : State) (decl : Decl) : Result State :=
  match decl with
  | .FuncDecl t => funcStep runtimePath packagePath decl t st
  | .GenDecl specs => foldlR (specStep packagePath decl) st specs
  | .BadDecl _ _ => .error "unhandled type *ast.BadDecl"

/-- One receiver of the regrouping loop: `recv.Type.String()` crashes on a nil type. -/
def regroupStep (methods : Map (List Ptr)) (recv : receiver) : Result (Map (List Ptr)) :=
  match recv.Typ with
  | none => .panic "invalid memory address or nil pointer dereference"
  | some recvType =>
      let typeof := recvType.str
      .ok (methods.set typeof (((methods.get typeof).getD []) ++ [recv.Function]))

/-- The loop that regroups the receivers by the string of the receiver type. -/
def regroup (entries : List (String × List receiver)) : Result (Map (List Ptr)) :=
  foldlR (fun methods entry => foldlR regroupStep methods entry.2) [] entries

/-- The three nested loops of `New` over the packages, files and declarations. -/
def pass (runtimePath : String) (program : Program) : Result State :=
  foldlR
    (fun st info =>
      foldlR (fun st file => foldlR (declStep runtimePath info.Path) st file) st info.Files)
    State.empty program.AllPackages

/-- `New` on a program loaded with errors: an index, an `error`, or a panic. -/
def New (getRuntimePath : Except String String) (program : Program) (seed : Nat) :
    Result Index :=
  match getRuntimePath with
  | .error err => .error err
  | .ok runtimePath =>
      match pass runtimePath program with
      | .error msg => .error msg
      | .panic msg => .panic msg
      | .ok st =>
          match regroup (rangeOrder seed st.receivers) with
          | .error msg => .error msg
          | .panic msg => .panic msg
          | .ok methods =>
              .ok
                { heap := st.heap
                  declarations := st.declarations
                  imports := st.imports
                  runtime := st.runtime
                  interfaces := st.interfaces
                  receivers := st.receivers
                  methods := methods }

/-- Whether the pass meets no nil lookup in a spec: every declared name has
its object and a declared type its static type. -/
def Spec.resolved : Spec → Bool
  | .ValueSpec names => names.all (fun name => name.2.isSome)
  | .TypeSpec _ obj typeOf _ => obj.isSome && typeOf.isSome
  | .ImportSpec _ _ => true

/-- Whether the pass meets no nil lookup and no empty receiver list in a
top-level declaration. -/
def Decl.resolved : Decl → Bool
  | .FuncDecl t => t.obj.isSome && t.recv != some []
  | .GenDecl specs => specs.all Spec.resolved
  | .BadDecl _ _ => true

/-- The top-level declarations of the program with their package paths, in
the order of the pass. -/
def passDecls (program : Program) : List (String × Decl) :=
  program.AllPackages.flatMap
    (fun info => info.Files.flatMap (fun file => file.map (fun decl => (info.Path, decl))))

/-- The object of a function `f` of package `p`. -/
def fObject : Object :=
  { kind := .Func, Pkg := some "p", str := "func p.f()", Exported := false }

/-- Package `p` with `func f()`, a second `func f()` for which the checker
recorded no object, and a declaration that did not parse. -/
def redeclaredProgram : Program :=
  { AllPackages :=
      [{ Path := "p"
         Files :=
           [[.FuncDecl { name := "f", obj := some fObject, params := [], recv := none },
             .FuncDecl { name := "f", obj := none, params := [], recv := none },
             .BadDecl 40 52]] }] }

/-- Package `p` with `func f()`, a declaration that did not parse, and then
a second `func f()` for which the checker recorded no object. -/
def badFirstProgram : Program :=
  { AllPackages :=
      [{ Path := "p"
         Files :=
           [[.FuncDecl { name := "f", obj := some fObject, params := [], recv := none },
             .BadDecl 40 52],
            [.FuncDecl { name := "f", obj := none, params := [], recv := none }]] }] }

/-! ### A program whose names all resolve, as a loaded program -/

/-- A function declaration with its object and receiver type present. -/
def ofFuncDecl (t : Joy.FuncDecl) : FuncDecl :=
  { name := t.name, obj := some t.obj, params := t.params
    recv := t.recv.map (fun recvType => [some recvType]) }

/-- A spec with every object and type present. -/
def ofSpec : Joy.Spec → Spec
  | .ValueSpec names => .ValueSpec (names.map (fun name => (name.1, some name.2)))
  | .TypeSpec name obj typeOf type => .TypeSpec name (some obj) (some typeOf) type
  | .ImportSpec name pathValue => .ImportSpec name pathValue

/-- A top-level declaration with every object and type present. -/
def ofDecl : Joy.Decl → Decl
  | .FuncDecl t => .FuncDecl (ofFuncDecl t)
  | .GenDecl specs => .GenDecl (specs.map ofSpec)
  | .BadDecl From To => .BadDecl From To

/-- A program with every object and type present. -/
def ofProgram (program : Joy.Program) : Program :=
  { AllPackages :=
      program.AllPackages.map
        (fun info => { Path := info.Path, Files := info.Files.map (fun file => file.map ofDecl) }) }

/-- The same declaration, its node read as a node of the loaded program. -/
def ofDeclaration (d : Joy.Declaration) : Declaration :=
  { Exported := d.Exported, From := d.From, Name := d.Name, ID := d.ID, Node := ofDecl d.Node,
    Params := d.Params }

/-- The same receiver entry, its type present. -/
def ofReceiver (r : Joy.receiver) : receiver :=
  { Typ := some r.Typ, Function := r.Function }

/-- The same table with its values read through `g`. -/
def mapValues {α β : Type} (g : α → β) (m : Map α) : Map β :=
  m.map (fun e => (e.1, g e.2))

/-- The same tables. -/
def ofState (st : Joy.State) : State :=
  { heap := st.heap.map ofDeclaration
    declarations := st.declarations
    interfaces := st.interfaces
    runtime := st.runtime
    imports := st.imports
    receivers := mapValues (List.map ofReceiver) st.receivers }

/-- The same index. -/
def ofIndex (idx : Joy.Index) : Index :=
  { heap := idx.heap.map ofDeclaration
    declarations := idx.declarations
    runtime := idx.runtime
    imports := idx.imports
    interfaces := idx.interfaces
    receivers := mapValues (List.map ofReceiver) idx.receivers
    methods := idx.methods }

/-- An outcome without a crash, as an outcome. -/
def ofExcept {α β : Type} (g : α → β) : Except String α → Result β
  | .ok a => .ok (g a)
  | .error msg => .error msg

end Loaded

/-! ## What the pass registers, read off the program -/

/-- A declaration the construction pass registers: a function or method, one
name of a value spec, or a type spec, with the package path and, for a spec,
the specs of the enclosing `*ast.GenDecl`. -/
inductive Registered
  | func (packagePath : String) (t : FuncDecl)
  | value (packagePath : String) (specs : List Spec) (name : String × Object)
  | type (packagePath : String) (specs : List Spec) (name : String) (obj : Object)
      (typeof : GoType) (type : TypeExpr)
  deriving DecidableEq, Repr

/-- The declaration object built for a registered declaration, as it stands
when the pass is over. -/
def Registered.declaration : Registered → Declaration
  | .func packagePath t => funcDeclaration packagePath (.FuncDecl t) t
  | .value packagePath specs name => valueDeclaration packagePath (.GenDecl specs) name
  | .type packagePath specs name obj _ (.InterfaceType _ _) =>
      { typeDeclaration packagePath (.GenDecl specs) name obj with Exported := false }
  | .type packagePath specs name obj _ (.Other _) =>
      typeDeclaration packagePath (.GenDecl specs) name obj

/-- The keys of the declarations table that are assigned for it. -/
def Registered.keys : Registered → List String
  | .func _ t => [t.obj.str]
  | .value _ _ name => [name.2.str]
  | .type _ _ _ obj typeof _ => [obj.str, typeof.str]

/-- The receiver type recorded for it, when it is a method. -/
def Registered.recv : Registered → Option GoType
  | .func _ t => t.recv
  | _ => none

/-- The registered declarations of a spec of the `*ast.GenDecl` of `specs`, in order. -/
def specRegistrations (packagePath : String) (specs : List Spec) : Spec → List Registered
  | .ValueSpec names => names.map (fun name => Registered.value packagePath specs name)
  | .TypeSpec name obj typeof type => [Registered.type packagePath specs name obj typeof type]
  | .ImportSpec _ _ => []

/-- The registered declarations of a top-level declaration, in order. -/
def declRegistrations (packagePath : String) : Decl → List Registered
  | .FuncDecl t => [Registered.func packagePath t]
  | .GenDecl specs => specs.flatMap (specRegistrations packagePath specs)
  | .BadDecl _ _ => []

/-- Every declaration of the program that the pass registers, in the order of
the pass. The `k`-th of them is allocated at address `k`. -/
def registrations (program : Program) : List Registered :=
  program.AllPackages.flatMap
    (fun info => info.Files.flatMap (fun file => file.flatMap (declRegistrations info.Path)))

/-- The pointer stored last under `key` by registrations allocated from
address `n` on; `cur` is what the table held before. -/
def lastWriter (key : String) : List Registered → Nat → Option Ptr → Option Ptr
  | [], _, cur => cur
  | r :: rs, n, cur => lastWriter key rs (n + 1) (if key ∈ r.keys then some n else cur)

/-- Whether a registration is a method named `method` whose recorded
receiver type satisfies `implements` against `iface`. -/
def isImplementation (implements : GoType → GoType → Bool) (iface : GoType) (method : String) :
    Registered → Bool
  | .func _ t =>
      match t.recv with
      | some recvType => t.name == method && implements recvType iface
      | none => false
  | _ => false

/-- The receiver entry of a registration at address `k`, when it is a method named `method`. -/
def recordedAs (method : String) (e : Nat × Registered) : Option receiver :=
  match e.2.recv with
  | some recvType =>
      if e.2.declaration.Name = method then some { Typ := recvType, Function := e.1 } else none
  | none => none

/-- An import statement of the pass: the package path it is met in, its
alias (when written) and its quoted path. -/
structure ImportStmt where
  packagePath : String
  name : Option String
  pathValue : String
  deriving DecidableEq, Repr

/-- The key an import statement is stored under. -/
def ImportStmt.alias (s : ImportStmt) : String :=
  match s.name with
  | some n => n
  | none => pathBase (stringsTrim s.pathValue doubleQuote)

/-- The path an import statement stores: the quotes trimmed. -/
def ImportStmt.depPath (s : ImportStmt) : String :=
  stringsTrim s.pathValue doubleQuote

/-- The import statements of a spec. -/
def specImports (packagePath : String) : Spec → List ImportStmt
  | .ImportSpec name pathValue => [{ packagePath := packagePath, name := name, pathValue := pathValue }]
  | _ => []

/-- The import statements of a top-level declaration. -/
def declImports (packagePath : String) : Decl → List ImportStmt
  | .GenDecl specs => specs.flatMap (specImports packagePath)
  | _ => []

/-- Every import statement of the program, in the order of the pass. -/
def importStatements (program : Program) : List ImportStmt :=
  program.AllPackages.flatMap
    (fun info => info.Files.flatMap (fun file => file.flatMap (declImports info.Path)))

/-- The import statements met in packages of path `packagePath`. -/
def importsOf (program : Program) (packagePath : String) : List ImportStmt :=
  (importStatements program).filter (fun s => s.packagePath = packagePath)

/-! ## The effect of a stretch of the pass -/

/-- The table built from `tbl` by the import statements `stmts`, in order. -/
def importTable (stmts : List ImportStmt) (tbl : Map String) : Map String :=
  stmts.foldl (fun tbl s => tbl.set s.alias s.depPath) tbl

/-- Running from `st` to `st'` allocates and stores exactly the registrations `regs`. -/
def DeclEff (st : State) (regs : List Registered) (st' : State) : Prop :=
  st'.heap = st.heap ++ regs.map Registered.declaration ∧
  (∀ key, st'.declarations.get key
      = lastWriter key regs st.heap.length (st.declarations.get key)) ∧
  (∀ m, (st'.receivers.get m).getD []
      = (st.receivers.get m).getD [] ++ (regs.enumFrom st.heap.length).filterMap (recordedAs m))

/-- Running from `st` to `st'` stores exactly the import statements `stmts`. -/
def ImpEff (st : State) (stmts : List ImportStmt) (st' : State) : Prop :=
  ∀ p, (st'.imports.get p).getD []
    = importTable (stmts.filter (fun s => s.packagePath = p)) ((st.imports.get p).getD [])

/-- Whether a registration is a method whose recorded receiver type prints as `t`. -/
def isMethodOn (t : String) : Registered → Bool
  | .func _ f =>
      match f.recv with
      | some recvType => recvType.str == t
      | none => false
  | _ => false

/-- The receiver entry of a registration at address `k`, when it is a method. -/
def recordedAny (e : Nat × Registered) : Option receiver :=
  match e.2.recv with
  | some recvType => some { Typ := recvType, Function := e.1 }
  | none => none

/-- Running from `st` to `st'` allocates `regs` and records exactly their
receivers, the receivers table keeping one entry per method name. -/
def RecvEff (st : State) (regs : List Registered) (st' : State) : Prop :=
  st'.heap.length = st.heap.length + regs.length ∧
  ((st.receivers.map (fun e => e.1)).Nodup →
    (st'.receivers.map (fun e => e.1)).Nodup ∧
    (st'.receivers.flatMap (fun e => e.2)).Perm
      (st.receivers.flatMap (fun e => e.2)
        ++ (regs.enumFrom st.heap.length).filterMap recordedAny))

/-! ## Example programs -/

/-- The object of a blank variable `var _ int` of package `p`. -/
def blankVar : Object :=
  { kind := .Var, Pkg := some "p", str := "var p._ int", Exported := false }

/-- The specs of `var ( _ int; x int )`. -/
def blankSpecsA : List Spec :=
  [.ValueSpec [("_", blankVar)],
   .ValueSpec [("x", { kind := .Var, Pkg := some "p", str := "var p.x int", Exported := false })]]

/-- The specs of a later `var _ int`. -/
def blankSpecsB : List Spec :=
  [.ValueSpec [("_", blankVar)]]

/-- Package `p` with the two declarations above in one file. -/
def blankProgram : Program :=
  { AllPackages := [{ Path := "p", Files := [[.GenDecl blankSpecsA, .GenDecl blankSpecsB]] }] }

/-- The specs of `type B int`. -/
def aliasSpecsB : List Spec :=
  [.TypeSpec "B" { kind := .TypeName, Pkg := some "p", str := "type p.B int", Exported := true }
    { str := "p.B", isInterface := false } (.Other { str := "int", isInterface := false })]

/-- The specs of `type A = B`: the static type of `A` is that of `B`. -/
def aliasSpecsA : List Spec :=
  [.TypeSpec "A" { kind := .TypeName, Pkg := some "p", str := "type p.A = p.B", Exported := true }
    { str := "p.B", isInterface := false } (.Other { str := "p.B", isInterface := false })]

/-- Package `p` with `type B int` followed by `type A = B`. -/
def aliasProgram : Program :=
  { AllPackages := [{ Path := "p", Files := [[.GenDecl aliasSpecsB, .GenDecl aliasSpecsA]] }] }

/-- The index `New` builds from `blankProgram`. -/
def blankIndex : Index :=
  { heap :=
      [valueDeclaration "p" (.GenDecl blankSpecsA) ("_", blankVar),
       valueDeclaration "p" (.GenDecl blankSpecsA)
         ("x", { kind := .Var, Pkg := some "p", str := "var p.x int", Exported := false }),
       valueDeclaration "p" (.GenDecl blankSpecsB) ("_", blankVar)]
    declarations := [("var p._ int", 2), ("var p.x int", 1)]
    runtime := []
    imports := []
    interfaces := []
    receivers := []
    methods := [] }

/-- The index `New` builds from `aliasProgram`. -/
def aliasIndex : Index :=
  { heap :=
      [{ Exported := true, From := "p", Name := "B", ID := "type p.B int",
         Node := .GenDecl aliasSpecsB, Params := [] },
       { Exported := true, From := "p", Name := "A", ID := "type p.A = p.B",
         Node := .GenDecl aliasSpecsA, Params := [] }]
    declarations := [("p.B", 1), ("type p.A = p.B", 1), ("type p.B int", 0)]
    runtime := []
    imports := []
    interfaces := []
    receivers := []
    methods := [] }

/-- The static type of the interface literal of `Shape`. -/
def shapeInterface : GoType :=
  { str := "interface\x7bArea() float64\x7d", isInterface := true }

/-- The specs of `type Shape interface ( Area() float64 )` of package `a`. -/
def shapeSpecs : List Spec :=
  [.TypeSpec "Shape"
    { kind := .TypeName, Pkg := some "a", str := "type a.Shape interface\x7bArea() float64\x7d",
      Exported := true }
    { str := "a.Shape", isInterface := false } (.InterfaceType [["Area"]] shapeInterface)]

/-- The specs of `type Circle struct()` of package `b`. -/
def circleSpecs : List Spec :=
  [.TypeSpec "Circle"
    { kind := .TypeName, Pkg := some "b", str := "type b.Circle struct\x7b\x7d", Exported := true }
    { str := "b.Circle", isInterface := false }
    (.Other { str := "struct\x7b\x7d", isInterface := false })]

/-- The specs of `type Square struct()` of package `b`. -/
def squareSpecs : List Spec :=
  [.TypeSpec "Square"
    { kind := .TypeName, Pkg := some "b", str := "type b.Square struct\x7b\x7d", Exported := true }
    { str := "b.Square", isInterface := false }
    (.Other { str := "struct\x7b\x7d", isInterface := false })]

/-- `func (c Circle) Area() float64` -/
def circleArea : FuncDecl :=
  { name := "Area"
    obj := { kind := .Func, Pkg := some "b", str := "func (b.Circle).Area() float64",
             Exported := true }
    params := []
    recv := some { str := "b.Circle", isInterface := false } }

/-- `func (s Square) Area(scale int) int`: not the signature `Shape` asks for. -/
def squareArea : FuncDecl :=
  { name := "Area"
    obj := { kind := .Func, Pkg := some "b", str := "func (b.Square).Area(scale int) int",
             Exported := true }
    params := [["scale"]]
    recv := some { str := "b.Square", isInterface := false } }

/-- `func (s Square) Side() float64` -/
def squareSide : FuncDecl :=
  { name := "Side"
    obj := { kind := .Func, Pkg := some "b", str := "func (b.Square).Side() float64",
             Exported := true }
    params := []
    recv := some { str := "b.Square", isInterface := false } }

/-- `func main()` of package `b` -/
def mainFunc : FuncDecl :=
  { name := "main"
    obj := { kind := .Func, Pkg := some "b", str := "func b.main()", Exported := false }
    params := []
    recv := none }

/-- Package `a` declares the interface `Shape`; package `b` imports `a` and
declares `Circle` with `Area`, `Square` with `Side` and an `Area` of another
signature, and `main`. -/
def shapesProgram : Program :=
  { AllPackages :=
      [{ Path := "a", Files := [[.GenDecl shapeSpecs]] },
       { Path := "b"
         Files :=
           [[.GenDecl [.ImportSpec none "\"example.com/a\""], .GenDecl circleSpecs,
             .FuncDecl circleArea],
            [.GenDecl squareSpecs, .FuncDecl squareSide, .FuncDecl squareArea,
             .FuncDecl mainFunc]] }] }

/-- `gotypes.Implements` on the types of `shapesProgram`: only `Circle` has
the method set of `Shape`. -/
def shapesImplements (t iface : GoType) : Bool :=
  t.str == "b.Circle" && iface.str == "interface\x7bArea() float64\x7d"

/-- The index `New` builds from `shapesProgram`. -/
def shapesIndex : Index :=
  { heap :=
      [{ Exported := false, From := "a", Name := "Shape",
         ID := "type a.Shape interface\x7bArea() float64\x7d", Node := .GenDecl shapeSpecs,
         Params := [] },
       { Exported := true, From := "b", Name := "Circle", ID := "type b.Circle struct\x7b\x7d",
         Node := .GenDecl circleSpecs, Params := [] },
       { Exported := false, From := "b", Name := "Area", ID := "func (b.Circle).Area() float64",
         Node := .FuncDecl circleArea, Params := [] },
       { Exported := true, From := "b", Name := "Square", ID := "type b.Square struct\x7b\x7d",
         Node := .GenDecl squareSpecs, Params := [] },
       { Exported := false, From := "b", Name := "Side", ID := "func (b.Square).Side() float64",
         Node := .FuncDecl squareSide, Params := [] },
       { Exported := false, From := "b", Name := "Area",
         ID := "func (b.Square).Area(scale int) int", Node := .FuncDecl squareArea,
         Params := ["scale"] },
       { Exported := true, From := "b", Name := "main", ID := "func b.main()",
         Node := .FuncDecl mainFunc, Params := [] }]
    declarations :=
      [("func b.main()", 6), ("func (b.Square).Area(scale int) int", 5),
       ("func (b.Square).Side() float64", 4), ("b.Square", 3),
       ("type b.Square struct\x7b\x7d", 3), ("func (b.Circle).Area() float64", 2),
       ("b.Circle", 1), ("type b.Circle struct\x7b\x7d", 1), ("a.Shape", 0),
       ("type a.Shape interface\x7bArea() float64\x7d", 0)]
    runtime := []
    imports := [("b", [("a", "example.com/a")])]
    interfaces :=
      [("a.Shape", shapeInterface), ("type a.Shape interface\x7bArea() float64\x7d", shapeInterface)]
    receivers :=
      [("Area",
        [{ Typ := { str := "b.Circle", isInterface := false }, Function := 2 },
         { Typ := { str := "b.Square", isInterface := false }, Function := 5 }]),
       ("Side", [{ Typ := { str := "b.Square", isInterface := false }, Function := 4 }])]
    methods := [("b.Square", [5, 4]), ("b.Circle", [2])] }

/-- The specs of `type Alias = Shape` of package `a`. -/
def shapeAliasSpecs : List Spec :=
  [.TypeSpec "Alias"
    { kind := .TypeName, Pkg := some "a", str := "type a.Alias = a.Shape", Exported := true }
    { str := "a.Shape", isInterface := false }
    (.Other { str := "a.Shape", isInterface := false })]

/-- Package `a` with the interface `Shape` followed by `type Alias = Shape`. -/
def shapeAliasProgram : Program :=
  { AllPackages := [{ Path := "a", Files := [[.GenDecl shapeSpecs, .GenDecl shapeAliasSpecs]] }] }

/-- The index `New` builds from `shapeAliasProgram`. -/
def shapeAliasIndex : Index :=
  { heap :=
      [{ Exported := false, From := "a", Name := "Shape",
         ID := "type a.Shape interface\x7bArea() float64\x7d", Node := .GenDecl shapeSpecs,
         Params := [] },
       { Exported := true, From := "a", Name := "Alias", ID := "type a.Alias = a.Shape",
         Node := .GenDecl shapeAliasSpecs, Params := [] }]
    declarations :=
      [("a.Shape", 1), ("type a.Alias = a.Shape", 1),
       ("type a.Shape interface\x7bArea() float64\x7d", 0)]
    runtime := []
    imports := []
    interfaces :=
      [("a.Shape", shapeInterface), ("type a.Shape interface\x7bArea() float64\x7d", shapeInterface)]
    receivers := []
    methods := [] }

/-- The object of the type name `Shape` of package `a`. -/
def shapeObject : Object :=
  { kind := .TypeName, Pkg := some "a", str := "type a.Shape interface\x7bArea() float64\x7d",
    Exported := true }

/-- The type spec of `Shape` as `NewInterface` reads it. -/
def shapeNode : TypeSpecNode :=
  { Name := "Shape", Type_ := .InterfaceType [["Area"]] shapeInterface }

/-- Package `p` whose two files import `math/rand` and `crypto/rand`. -/
def randProgram : Program :=
  { AllPackages :=
      [{ Path := "p"
         Files :=
           [[.GenDecl [.ImportSpec none "\"math/rand\""]],
            [.GenDecl [.ImportSpec none "\"crypto/rand\""]]] }] }

/-- The index `New` builds from `randProgram`. -/
def randIndex : Index :=
  { heap := [], declarations := [], runtime := []
    imports := [("p", [("rand", "crypto/rand")])]
    interfaces := [], receivers := [], methods := [] }

/-- Package `p` with a function, a declaration that did not parse, and a variable. -/
def badProgram : Program :=
  { AllPackages :=
      [{ Path := "p"
         Files := [[.FuncDecl mainFunc, .BadDecl 40 52, .GenDecl blankSpecsB]] }] }

/-- The object of the type name `Square` of package `b`. -/
def squareObject : Object :=
  { kind := .TypeName, Pkg := some "b", str := "type b.Square struct\x7b\x7d", Exported := true }

/-- The type spec of `type Square struct()` as `NewInterface` reads it. -/
def squareNode : TypeSpecNode :=
  { Name := "Square", Type_ := .Other { str := "struct\x7b\x7d", isInterface := false } }

/-- An index of definitions whose package `a` imports `fmt` and `example.com/b`. -/
def shapeDefIndex : DefIndex :=
  { imports := [("a", [("fmt", "fmt"), ("b", "example.com/b")])] }

/-- The definition `NewInterface` builds for `Shape` over `shapeDefIndex`. -/
def shapeDef : ifacedef :=
  { exported := true, path := "a", name := "Shape", id := "a Shape", index := shapeDefIndex,
    methods := ["Area"], node := shapeNode, kind := shapeInterface, processed := false,
    methodDeps := [], imports := [] }

/-- `badProgram` with the offending declaration at another place: in a
second file, after the variable, at other source positions. -/
def badProgramLater : Program :=
  { AllPackages :=
      [{ Path := "p"
         Files := [[.FuncDecl mainFunc], [.GenDecl blankSpecsB, .BadDecl 90 99]] }] }

/-- The specs of an interface declaration `Reader` whose literal the type
checker did not resolve to an interface. -/
def malformedSpecsA : List Spec :=
  [.TypeSpec "Reader"
    { kind := .TypeName, Pkg := some "p", str := "type p.Reader invalid type", Exported := true }
    { str := "p.Reader", isInterface := false }
    (.InterfaceType [["Read"]] { str := "invalid type", isInterface := false })]

/-- The same for a declaration `Writer` further down. -/
def malformedSpecsB : List Spec :=
  [.TypeSpec "Writer"
    { kind := .TypeName, Pkg := some "p", str := "type p.Writer invalid type", Exported := true }
    { str := "p.Writer", isInterface := false }
    (.InterfaceType [["Write"]] { str := "invalid type", isInterface := false })]

/-- Package `p` whose first declaration is the malformed `Reader`. -/
def malformedProgramA : Program :=
  { AllPackages := [{ Path := "p", Files := [[.GenDecl malformedSpecsA, .FuncDecl mainFunc]] }] }

/-- Package `p` whose last declaration is the malformed `Writer`. -/
def malformedProgramB : Program :=
  { AllPackages := [{ Path := "p", Files := [[.FuncDecl mainFunc], [.GenDecl malformedSpecsB]] }] }

/-! ## Tables and folds -/

theorem Map.get_filter_ne {α : Type} (m : Map α) (k k' : String) (h : k' ≠ k) :
    List.lookup k' (m.filter (fun e => e.1 != k)) = List.lookup k' m := by
  induction m with
  | nil => rfl
  | cons e m ih =>
    obtain ⟨a, b⟩ := e
    by_cases ha : a = k
    · subst ha
      have : (k' == a) = false := by simpa using h
      simp [List.filter, List.lookup, this, ih]
    · have hne : (a != k) = true := by simpa using ha
      simp only [List.filter, hne, List.lookup, ih]

theorem Map.get_set {α : Type} (m : Map α) (k k' : String) (v : α) :
    (m.set k v).get k' = if k' = k then some v else m.get k' := by
  unfold Map.set Map.get
  by_cases h : k' = k
  · subst h; simp [List.lookup]
  · have : (k' == k) = false := by simpa using h
    simp [List.lookup, this, h, Map.get_filter_ne m k k' h]

theorem Map.get_set_self {α : Type} (m : Map α) (k : String) (v : α) :
    (m.set k v).get k = some v := by
  simp [Map.get_set]

theorem Map.get_set_ne {α : Type} (m : Map α) (k k' : String) (v : α) (h : k' ≠ k) :
    (m.set k v).get k' = m.get k' := by
  simp [Map.get_set, h]

theorem foldlM_log {σ α X : Type} (E : σ → List X → σ → Prop) (hnil : ∀ s, E s [] s)
    (happ : ∀ s1 s2 s3 l1 l2, E s1 l1 s2 → E s2 l2 s3 → E s1 (l1 ++ l2) s3)
    (f : σ → α → Except String σ) (g : α → List X) (l : List α)
    (hstep : ∀ s x s', x ∈ l → f s x = .ok s' → E s (g x) s') :
    ∀ s s', l.foldlM f s = .ok s' → E s (l.flatMap g) s' := by
  induction l with
  | nil =>
    intro s s' h
    simp [List.foldlM, pure, Except.pure] at h
    subst h
    exact hnil s
  | cons x l ih =>
    intro s s' h
    rw [List.foldlM_cons] at h
    cases hx : f s x with
    | error e => rw [hx] at h; cases h
    | ok s1 =>
      rw [hx] at h
      have h1 := hstep s x s1 (List.mem_cons_self _ _) hx
      have h2 := ih (fun s y s' hy => hstep s y s' (List.mem_cons_of_mem _ hy)) s1 s' h
      rw [List.flatMap_cons]
      exact happ _ _ _ _ _ h1 h2

theorem foldl_log {σ α X : Type} (E : σ → List X → σ → Prop) (hnil : ∀ s, E s [] s)
    (happ : ∀ s1 s2 s3 l1 l2, E s1 l1 s2 → E s2 l2 s3 → E s1 (l1 ++ l2) s3)
    (f : σ → α → σ) (g : α → List X) (l : List α)
    (hstep : ∀ s x, x ∈ l → E s (g x) (f s x)) :
    ∀ s, E s (l.flatMap g) (l.foldl f s) := by
  induction l with
  | nil => intro s; exact hnil s
  | cons x l ih =>
    intro s
    rw [List.foldl_cons, List.flatMap_cons]
    exact happ _ _ _ _ _ (hstep s x (List.mem_cons_self _ _))
      (ih (fun s y hy => hstep s y (List.mem_cons_of_mem _ hy)) (f s x))

theorem lastWriter_append (key : String) (a b : List Registered) (n : Nat) (cur : Option Ptr) :
    lastWriter key (a ++ b) n cur = lastWriter key b (n + a.length) (lastWriter key a n cur) := by
  induction a generalizing n cur with
  | nil => simp [lastWriter]
  | cons r a ih =>
    simp only [List.cons_append, List.length_cons]
    rw [lastWriter, lastWriter, ih]
    congr 1
    omega

theorem lastWriter_none_of_not_mem (key : String) (rs : List Registered) (n : Nat)
    (cur : Option Ptr) (h : ∀ r ∈ rs, key ∉ r.keys) : lastWriter key rs n cur = cur := by
  induction rs generalizing n cur with
  | nil => rfl
  | cons r rs ih =>
    have hr : key ∉ r.keys := h r (List.mem_cons_self _ _)
    simp only [lastWriter, hr, if_false]
    exact ih _ _ (fun r' hr' => h r' (List.mem_cons_of_mem _ hr'))

theorem DeclEff_nil (st : State) : DeclEff st [] st := by
  refine ⟨by simp, fun key => by simp [lastWriter], fun m => by simp [List.enumFrom]⟩

theorem DeclEff_append (s1 s2 s3 : State) (l1 l2 : List Registered)
    (h1 : DeclEff s1 l1 s2) (h2 : DeclEff s2 l2 s3) : DeclEff s1 (l1 ++ l2) s3 := by
  obtain ⟨a1, b1, c1⟩ := h1
  obtain ⟨a2, b2, c2⟩ := h2
  have hlen : s2.heap.length = s1.heap.length + l1.length := by simp [a1]
  refine ⟨by rw [a2, a1]; simp, fun key => ?_, fun m => ?_⟩
  · rw [b2, b1, lastWriter_append, hlen]
  · rw [c2, c1, hlen, List.enumFrom_append, List.filterMap_append, List.append_assoc]

theorem ImpEff_nil (st : State) : ImpEff st [] st := by
  intro p; simp [importTable]

theorem ImpEff_append (s1 s2 s3 : State) (l1 l2 : List ImportStmt)
    (h1 : ImpEff s1 l1 s2) (h2 : ImpEff s2 l2 s3) : ImpEff s1 (l1 ++ l2) s3 := by
  intro p
  rw [h2 p, h1 p]
  simp [importTable, List.filter_append, List.foldl_append]

theorem unexport_append (heap : List Declaration) (d : Declaration) :
    unexport (heap ++ [d]) heap.length = heap ++ [{ d with Exported := false }] := by
  unfold unexport
  simp

theorem funcStep_DeclEff (runtimePath packagePath : String) (t : FuncDecl) (st : State) :
    DeclEff st [Registered.func packagePath t]
      (funcStep runtimePath packagePath (.FuncDecl t) t st) := by
  refine ⟨by simp [funcStep, Registered.declaration], fun key => ?_, fun m => ?_⟩
  · simp [funcStep, lastWriter, Registered.keys, Map.get_set]
  · cases hr : t.recv with
    | none => simp [funcStep, hr, List.enumFrom, recordedAs, Registered.recv]
    | some ty =>
      by_cases hm : t.name = m
      · subst hm
        simp [funcStep, hr, List.enumFrom, recordedAs, Registered.recv, Map.get_set,
          Registered.declaration, funcDeclaration]
      · have hm' : m ≠ t.name := fun h => hm h.symm
        simp [funcStep, hr, List.enumFrom, recordedAs, Registered.recv, Map.get_set,
          Registered.declaration, funcDeclaration, hm, hm']

theorem valueStep_DeclEff (packagePath : String) (specs : List Spec) (st : State)
    (name : String × Object) :
    DeclEff st [Registered.value packagePath specs name]
      (valueStep packagePath (.GenDecl specs) st name) := by
  refine ⟨by simp [valueStep, Registered.declaration], fun key => ?_, fun m => ?_⟩
  · simp [valueStep, lastWriter, Registered.keys, Map.get_set]
  · simp [valueStep, List.enumFrom, recordedAs, Registered.recv]

theorem typeStep_DeclEff (packagePath : String) (specs : List Spec) (st st' : State)
    (name : String) (obj : Object) (typeof : GoType) (type : TypeExpr)
    (h : typeStep packagePath (.GenDecl specs) st name obj typeof type = .ok st') :
    DeclEff st [Registered.type packagePath specs name obj typeof type] st' := by
  cases type with
  | Other ty =>
    simp only [typeStep, Except.ok.injEq] at h
    subst h
    refine ⟨by simp [Registered.declaration], fun key => ?_, fun m => ?_⟩
    · by_cases h1 : key = typeof.str <;> by_cases h2 : key = obj.str <;>
        simp [lastWriter, Registered.keys, Map.get_set, h1, h2]
    · simp [List.enumFrom, recordedAs, Registered.recv]
  | InterfaceType ms ity =>
    simp only [typeStep] at h
    split at h
    · simp only [Except.ok.injEq] at h
      subst h
      refine ⟨by simp [Registered.declaration, unexport_append], fun key => ?_, fun m => ?_⟩
      · by_cases h1 : key = typeof.str <;> by_cases h2 : key = obj.str <;>
          simp [lastWriter, Registered.keys, Map.get_set, h1, h2]
      · simp [List.enumFrom, recordedAs, Registered.recv]
    · cases h

theorem importStep_DeclEff (packagePath : String) (st : State) (name : Option String)
    (pathValue : String) : DeclEff st [] (importStep packagePath st name pathValue) := by
  refine ⟨by simp [importStep], fun key => by simp [importStep, lastWriter],
    fun m => by simp [importStep, List.enumFrom]⟩

theorem flatMap_singleton_map {α β : Type} (f : α → β) (l : List α) :
    l.flatMap (fun x => [f x]) = l.map f := by
  induction l with
  | nil => rfl
  | cons x l ih => simp [List.flatMap_cons, ih]

theorem specStep_DeclEff (packagePath : String) (specs : List Spec) (st st' : State)
    (spec : Spec) (h : specStep packagePath (.GenDecl specs) st spec = .ok st') :
    DeclEff st (specRegistrations packagePath specs spec) st' := by
  cases spec with
  | ValueSpec names =>
    simp only [specStep, Except.ok.injEq] at h
    subst h
    have := foldl_log DeclEff DeclEff_nil DeclEff_append (valueStep packagePath (.GenDecl specs))
      (fun name => [Registered.value packagePath specs name]) names
      (fun s x _ => valueStep_DeclEff packagePath specs s x) st
    rw [flatMap_singleton_map] at this
    exact this
  | TypeSpec name obj typeof type => exact typeStep_DeclEff _ _ _ _ _ _ _ _ h
  | ImportSpec name pathValue =>
    simp only [specStep, Except.ok.injEq] at h
    subst h
    exact importStep_DeclEff _ _ _ _

theorem declStep_DeclEff (runtimePath packagePath : String) (st st' : State) (decl : Decl)
    (h : declStep runtimePath packagePath st decl = .ok st') :
    DeclEff st (declRegistrations packagePath decl) st' := by
  cases decl with
  | FuncDecl t =>
    simp only [declStep, Except.ok.injEq] at h
    subst h
    exact funcStep_DeclEff _ _ _ _
  | GenDecl specs =>
    exact foldlM_log DeclEff DeclEff_nil DeclEff_append _ _ specs
      (fun s x s' _ hx => specStep_DeclEff packagePath specs s s' x hx) st st' h
  | BadDecl a b => cases h

/-- The three nested loops of `New`. -/
theorem pass_DeclEff (runtimePath : String) (program : Program) (st st' : State)
    (h : program.AllPackages.foldlM
      (fun st info =>
        info.Files.foldlM
          (fun st file => file.foldlM (declStep runtimePath info.Path) st)
          st)
      st = .ok st') :
    DeclEff st (registrations program) st' := by
  refine foldlM_log DeclEff DeclEff_nil DeclEff_append _ _ _ ?_ st st' h
  intro s info s' _ hinfo
  refine foldlM_log DeclEff DeclEff_nil DeclEff_append _ _ _ ?_ s s' hinfo
  intro s file s' _ hfile
  refine foldlM_log DeclEff DeclEff_nil DeclEff_append _ _ _ ?_ s s' hfile
  intro s decl s' _ hdecl
  exact declStep_DeclEff runtimePath info.Path s s' decl hdecl

theorem New_ok (getRuntimePath : Except String String) (program : Program) (seed : Nat)
    (idx : Index) (h : New getRuntimePath program seed = .ok idx) :
    ∃ runtimePath st,
      getRuntimePath = .ok runtimePath ∧
      program.AllPackages.foldlM
        (fun st info =>
          info.Files.foldlM
            (fun st file => file.foldlM (declStep runtimePath info.Path) st)
            st)
        State.empty = .ok st ∧
      idx.heap = st.heap ∧ idx.declarations = st.declarations ∧ idx.imports = st.imports ∧
      idx.interfaces = st.interfaces ∧ idx.receivers = st.receivers ∧
      idx.runtime = st.runtime ∧ idx.methods = regroup (rangeOrder seed st.receivers) := by
  unfold New at h
  cases hr : getRuntimePath with
  | error e => rw [hr] at h; cases h
  | ok runtimePath =>
    rw [hr] at h
    simp only [bind, Except.bind] at h
    split at h
    · cases h
    · rename_i st hst
      simp only [pure, Except.pure, Except.ok.injEq] at h
      subst h
      exact ⟨runtimePath, st, rfl, hst, rfl, rfl, rfl, rfl, rfl, rfl, rfl⟩

/-- The store and the declaration and receiver tables of a built index, read off the program. -/
theorem New_registrations (getRuntimePath : Except String String) (program : Program)
    (seed : Nat) (idx : Index) (h : New getRuntimePath program seed = .ok idx) :
    idx.heap = (registrations program).map Registered.declaration ∧
    (∀ key, idx.declarations.get key = lastWriter key (registrations program) 0 none) ∧
    (∀ m, (idx.receivers.get m).getD [] = (registrations program).enum.filterMap (recordedAs m)) := by
  obtain ⟨runtimePath, st, _, hst, hh, hd, _, _, hrc, _, _⟩ := New_ok _ _ _ _ h
  obtain ⟨a, b, c⟩ := pass_DeclEff runtimePath program _ _ hst
  rw [hh, hd, hrc]
  refine ⟨by simpa [State.empty] using a, fun key => ?_, fun m => ?_⟩
  · simpa [State.empty, Map.get] using b key
  · simpa [State.empty, Map.get, List.enum] using c m
/-! ## Lookup by id -/

theorem Registered.id_mem_keys (r : Registered) : r.declaration.ID ∈ r.keys := by
  cases r with
  | func packagePath t => simp [Registered.declaration, Registered.keys, funcDeclaration]
  | value packagePath specs name =>
    simp [Registered.declaration, Registered.keys, valueDeclaration]
  | type packagePath specs name obj typeof type =>
    cases type <;> simp [Registered.declaration, Registered.keys, typeDeclaration]

/-- The table entry of a key that a registration stores and no later one does. -/
theorem lastWriter_split (key : String) (pre post : List Registered) (r : Registered)
    (hkey : key ∈ r.keys) (hlast : ∀ q ∈ post, key ∉ q.keys) :
    lastWriter key (pre ++ r :: post) 0 none = some pre.length := by
  rw [lastWriter_append, lastWriter, if_pos hkey, lastWriter_none_of_not_mem _ _ _ _ hlast]
  simp

theorem deref_split (idx : Index) (pre post : List Registered) (r : Registered)
    (hheap : idx.heap = (pre ++ r :: post).map Registered.declaration) :
    idx.deref pre.length = some r.declaration := by
  rw [Index.deref, hheap, List.get?_eq_getElem?, List.map_append,
    List.getElem?_append_right (by simp)]
  simp

/-- C1 (as amended): on a program that `New` indexes, a registered declaration
`D` whose id has no leading `*` and under whose id no declaration registered
after it is stored (neither as that one's id nor as its static-type string) is
what `FindByID(D.ID)` returns: the pointer allocated for `D`, holding `D`. -/
theorem FindByID_registered (getRuntimePath : Except String String) (program : Program)
    (seed : Nat) (idx : Index) (h : New getRuntimePath program seed = .ok idx)
    (pre post : List Registered) (r : Registered)
    (hreg : registrations program = pre ++ r :: post)
    (hstar : stringsTrimLeft r.declaration.ID '*' = r.declaration.ID)
    (hlast : ∀ q ∈ post, r.declaration.ID ∉ q.keys) :
    idx.FindByID r.declaration.ID = some pre.length ∧
    idx.deref pre.length = some r.declaration := by
  obtain ⟨hheap, hdecl, _⟩ := New_registrations _ _ _ _ h
  rw [hreg] at hheap hdecl
  refine ⟨?_, deref_split idx pre post r hheap⟩
  rw [Index.FindByID, hstar, hdecl]
  exact lastWriter_split _ pre post r r.id_mem_keys hlast

/-- C1, witness: the second blank variable of `blankProgram`, registered last. -/
theorem FindByID_registered_witness :
    New (.ok "runtime") blankProgram 0 = .ok blankIndex ∧
    blankIndex.FindByID "var p._ int" = some 2 ∧
    blankIndex.deref 2 = some (valueDeclaration "p" (.GenDecl blankSpecsB) ("_", blankVar)) :=
  ⟨rfl, FindByID_registered (.ok "runtime") blankProgram 0 blankIndex rfl
    [Registered.value "p" blankSpecsA ("_", blankVar),
     Registered.value "p" blankSpecsA
       ("x", { kind := .Var, Pkg := some "p", str := "var p.x int", Exported := false })]
    [] (Registered.value "p" blankSpecsB ("_", blankVar)) rfl (by decide) (by simp)⟩

/-- C1, counterexample: `blankProgram` declares two blank variables with the
same id `var p._ int`. The first is registered at address 0 and the second at
address 2, with a different declaration; `FindByID` of the first one's id
returns address 2, not the first declaration. -/
theorem FindByID_duplicate_id :
    New (.ok "runtime") blankProgram 0 = .ok blankIndex ∧
    registrations blankProgram =
      [Registered.value "p" blankSpecsA ("_", blankVar),
       Registered.value "p" blankSpecsA
         ("x", { kind := .Var, Pkg := some "p", str := "var p.x int", Exported := false }),
       Registered.value "p" blankSpecsB ("_", blankVar)] ∧
    blankIndex.deref 0 = some (Registered.value "p" blankSpecsA ("_", blankVar)).declaration ∧
    blankIndex.FindByID (Registered.value "p" blankSpecsA ("_", blankVar)).declaration.ID
      = some 2 ∧
    blankIndex.deref 2 ≠ blankIndex.deref 0 :=
  ⟨rfl, rfl, rfl, rfl, by decide⟩

/-- C2 (as amended): on a program that `New` indexes, for a type declaration
`T` whose declared-name id and static-type string have no leading `*` and
under neither of which a declaration registered after `T` is stored,
`FindByID` of the declared-name id and of the static-type string return the
same pointer, the one allocated for `T`, holding the declaration built for `T`. -/
theorem FindByID_type_alias (getRuntimePath : Except String String) (program : Program)
    (seed : Nat) (idx : Index) (h : New getRuntimePath program seed = .ok idx)
    (pre post : List Registered) (packagePath : String) (specs : List Spec) (name : String)
    (obj : Object) (typeof : GoType) (type : TypeExpr)
    (hreg : registrations program
      = pre ++ Registered.type packagePath specs name obj typeof type :: post)
    (hstarId : stringsTrimLeft obj.str '*' = obj.str)
    (hstarType : stringsTrimLeft typeof.str '*' = typeof.str)
    (hlast : ∀ q ∈ post, obj.str ∉ q.keys ∧ typeof.str ∉ q.keys) :
    idx.FindByID obj.str = some pre.length ∧
    idx.FindByID typeof.str = some pre.length ∧
    idx.deref pre.length
      = some (Registered.type packagePath specs name obj typeof type).declaration := by
  obtain ⟨hheap, hdecl, _⟩ := New_registrations _ _ _ _ h
  rw [hreg] at hheap hdecl
  refine ⟨?_, ?_, deref_split idx pre post _ hheap⟩
  · rw [Index.FindByID, hstarId, hdecl]
    exact lastWriter_split _ pre post _ (by simp [Registered.keys]) (fun q hq => (hlast q hq).1)
  · rw [Index.FindByID, hstarType, hdecl]
    exact lastWriter_split _ pre post _ (by simp [Registered.keys]) (fun q hq => (hlast q hq).2)

/-- C2, witness: `type A = B` of `aliasProgram`, the last type registered. -/
theorem FindByID_type_alias_witness :
    New (.ok "runtime") aliasProgram 0 = .ok aliasIndex ∧
    aliasIndex.FindByID "type p.A = p.B" = some 1 ∧
    aliasIndex.FindByID "p.B" = some 1 ∧
    aliasIndex.deref 1
      = some { Exported := true, From := "p", Name := "A", ID := "type p.A = p.B",
               Node := .GenDecl aliasSpecsA, Params := [] } :=
  ⟨rfl, FindByID_type_alias (.ok "runtime") aliasProgram 0 aliasIndex rfl
    [Registered.type "p" aliasSpecsB "B"
      { kind := .TypeName, Pkg := some "p", str := "type p.B int", Exported := true }
      { str := "p.B", isInterface := false } (.Other { str := "int", isInterface := false })]
    [] "p" aliasSpecsA "A"
    { kind := .TypeName, Pkg := some "p", str := "type p.A = p.B", Exported := true }
    { str := "p.B", isInterface := false } (.Other { str := "p.B", isInterface := false })
    rfl (by decide) (by decide) (by simp)⟩

/-- C2, counterexample: in `aliasProgram`, `type B int` is followed by
`type A = B`, whose static type prints as `p.B` too. For the type declaration
`B`, `FindByID` of its declared-name id returns address 0, the declaration
built for `B`, while `FindByID` of its static-type string returns address 1,
the declaration built for `A`. -/
theorem FindByID_alias_overwritten :
    New (.ok "runtime") aliasProgram 0 = .ok aliasIndex ∧
    registrations aliasProgram =
      [Registered.type "p" aliasSpecsB "B"
         { kind := .TypeName, Pkg := some "p", str := "type p.B int", Exported := true }
         { str := "p.B", isInterface := false } (.Other { str := "int", isInterface := false }),
       Registered.type "p" aliasSpecsA "A"
         { kind := .TypeName, Pkg := some "p", str := "type p.A = p.B", Exported := true }
         { str := "p.B", isInterface := false } (.Other { str := "p.B", isInterface := false })] ∧
    aliasIndex.FindByID "type p.B int" = some 0 ∧
    aliasIndex.FindByID "p.B" = some 1 ∧
    (aliasIndex.deref 0).map (fun d => d.Name) = some "B" ∧
    (aliasIndex.deref 1).map (fun d => d.Name) = some "A" :=
  ⟨rfl, rfl, rfl, rfl, rfl, rfl⟩
/-! ## Interface implementations -/

theorem recorded_filter (implements : GoType → GoType → Bool) (iface : GoType)
    (method : String) (es : List (Nat × Registered)) :
    (((es.filterMap (recordedAs method)).filter (fun recv => implements recv.Typ iface)).map
        (fun recv => recv.Function))
      = (es.filter (fun e => isImplementation implements iface method e.2)).map (fun e => e.1) := by
  induction es with
  | nil => rfl
  | cons e es ih =>
    obtain ⟨k, r⟩ := e
    cases r with
    | func packagePath t =>
      cases hr : t.recv with
      | none =>
        simp [List.filterMap_cons, List.filter_cons, recordedAs, Registered.recv,
          isImplementation, hr, ih]
      | some ty =>
        by_cases hm : t.name = method
        · by_cases hi : implements ty iface = true
          · simp [List.filterMap_cons, List.filter_cons, recordedAs, Registered.recv,
              isImplementation, hr, ih, hm, hi, Registered.declaration, funcDeclaration]
          · simp [List.filterMap_cons, List.filter_cons, recordedAs, Registered.recv,
              isImplementation, hr, ih, hm, hi, Registered.declaration, funcDeclaration]
        · simp [List.filterMap_cons, List.filter_cons, recordedAs, Registered.recv,
            isImplementation, hr, ih, hm, Registered.declaration, funcDeclaration]
    | value packagePath specs name =>
      simp [List.filterMap_cons, List.filter_cons, recordedAs, Registered.recv,
        isImplementation, ih]
    | type packagePath specs name obj typeof type =>
      simp [List.filterMap_cons, List.filter_cons, recordedAs, Registered.recv,
        isImplementation, ih]

theorem enum_filter_fst_nodup {α : Type} (l : List α) (q : Nat × α → Bool) :
    ((l.enum.filter q).map (fun e => e.1)).Nodup := by
  have hsub : ((l.enum.filter q).map (fun e => e.1)).Sublist (l.enum.map (fun e => e.1)) :=
    (List.filter_sublist _).map _
  have hrange : l.enum.map (fun e => e.1) = List.range l.length := by
    simp [List.enum_map_fst]
  rw [hrange] at hsub
  exact hsub.nodup (List.nodup_range _)

/-- C3: on an index built by `New`, `ImplementedBy(id, method)` is empty when
no interface is registered under `id`; otherwise it is exactly the pointers of
the registered methods (functions with a receiver) named `method` whose
recorded receiver type satisfies `Implements` against the interface registered
under `id`, in the order of the pass. Each pointer occurs once and holds the
declaration built for that method. -/
theorem ImplementedBy_registered (implements : GoType → GoType → Bool)
    (getRuntimePath : Except String String) (program : Program) (seed : Nat) (idx : Index)
    (h : New getRuntimePath program seed = .ok idx) (id method : String) :
    idx.ImplementedBy implements id method
      = (match idx.interfaces.get id with
        | none => []
        | some iface =>
            ((registrations program).enum.filter
              (fun e => isImplementation implements iface method e.2)).map (fun e => e.1)) ∧
    (idx.ImplementedBy implements id method).Nodup ∧
    ∀ p ∈ idx.ImplementedBy implements id method,
      ∃ packagePath t recvType iface,
        (registrations program).get? p = some (Registered.func packagePath t) ∧
        idx.deref p = some (funcDeclaration packagePath (.FuncDecl t) t) ∧
        t.name = method ∧ t.recv = some recvType ∧
        idx.interfaces.get id = some iface ∧ implements recvType iface = true := by
  obtain ⟨hheap, _, hrecv⟩ := New_registrations _ _ _ _ h
  have heq : idx.ImplementedBy implements id method
      = (match idx.interfaces.get id with
        | none => []
        | some iface =>
            ((registrations program).enum.filter
              (fun e => isImplementation implements iface method e.2)).map (fun e => e.1)) := by
    unfold Index.ImplementedBy
    cases hi : idx.interfaces.get id with
    | none => rfl
    | some iface =>
      simp only
      rw [hrecv method]
      exact recorded_filter implements iface method _
  refine ⟨heq, ?_, ?_⟩
  · rw [heq]
    cases idx.interfaces.get id with
    | none => exact List.nodup_nil
    | some iface => exact enum_filter_fst_nodup _ _
  · intro p hp
    rw [heq] at hp
    cases hi : idx.interfaces.get id with
    | none => rw [hi] at hp; cases hp
    | some iface =>
      rw [hi] at hp
      simp only [List.mem_map, List.mem_filter] at hp
      obtain ⟨⟨k, r⟩, ⟨hmem, himp⟩, hk⟩ := hp
      simp only at hk
      subst hk
      have hget : (registrations program).get? k = some r := by
        have := List.mk_mem_enum_iff_getElem?.mp hmem
        simpa [List.get?_eq_getElem?] using this
      cases r with
      | func packagePath t =>
        cases hr : t.recv with
        | none => simp [isImplementation, hr] at himp
        | some ty =>
          simp only [isImplementation, hr, Bool.and_eq_true, beq_iff_eq] at himp
          refine ⟨packagePath, t, ty, iface, hget, ?_, himp.1, hr, rfl, himp.2⟩
          rw [Index.deref, hheap, List.get?_eq_getElem?, List.getElem?_map]
          rw [List.get?_eq_getElem?] at hget
          rw [hget]
          rfl
      | value packagePath specs name => simp [isImplementation] at himp
      | type packagePath specs name obj typeof type => simp [isImplementation] at himp

/-- C3, witness: in `shapesProgram`, `ImplementedBy` of `Shape` and `Area` is
exactly the pointer of `Circle.Area`; the `Area` of `Square` and its `Side`
are left out. -/
theorem ImplementedBy_registered_witness :
    New (.ok "runtime") shapesProgram 0 = .ok shapesIndex ∧
    shapesIndex.ImplementedBy shapesImplements "a.Shape" "Area" = [2] ∧
    shapesIndex.deref 2 = some (funcDeclaration "b" (.FuncDecl circleArea) circleArea) :=
  ⟨rfl, (ImplementedBy_registered shapesImplements (.ok "runtime") shapesProgram 0 shapesIndex
    rfl "a.Shape" "Area").1, rfl⟩
/-! ## Methods of a type -/

theorem foldl_invariant {σ α : Type} (P : σ → Prop) (f : σ → α → σ) (l : List α)
    (hstep : ∀ s x, P s → P (f s x)) : ∀ s, P s → P (l.foldl f s) := by
  induction l with
  | nil => intro s hs; exact hs
  | cons x l ih => intro s hs; exact ih _ (hstep s x hs)

/-- The regrouping loop never stores an empty list. -/
theorem regroup_nonempty (entries : List (String × List receiver)) (k : String) (l : List Ptr)
    (h : (regroup entries).get k = some l) : l ≠ [] := by
  have hP : ∀ k l, (regroup entries).get k = some l → l ≠ [] := by
    unfold regroup
    refine foldl_invariant (fun m : Map (List Ptr) => ∀ k l, m.get k = some l → l ≠ []) _ _ ?_ _ ?_
    · intro m entry hm
      refine foldl_invariant (fun m : Map (List Ptr) => ∀ k l, m.get k = some l → l ≠ [])
        _ _ ?_ _ hm
      intro m recv hm k l hk
      simp only [Map.get_set] at hk
      split at hk
      · cases hk; simp
      · exact hm k l hk
    · intro k l hk
      simp [Map.get] at hk
  exact hP k l h

/-- C4: for every index and type id `t` with no list recorded under `t`,
`Methods(t)` is the list recorded under `*t`, and the empty list when there is
none either. On an index built by `New` the same holds when "no methods under
`t`" is read as "no non-empty list under `t`". -/
theorem Methods_pointer_fallback (i : Index) (t : String) :
    (i.methods.get t = none →
      (∀ l, i.methods.get ("*" ++ t) = some l → i.Methods t = l) ∧
      (i.methods.get ("*" ++ t) = none → i.Methods t = [])) ∧
    (∀ getRuntimePath program seed, New getRuntimePath program seed = .ok i →
      (i.methods.get t).getD [] = [] →
      i.Methods t = (i.methods.get ("*" ++ t)).getD []) := by
  have hnone : i.methods.get t = none →
      i.Methods t = (i.methods.get ("*" ++ t)).getD [] := by
    intro hbare
    unfold Index.Methods
    rw [hbare]
    cases i.methods.get ("*" ++ t) <;> rfl
  refine ⟨fun hbare => ⟨fun l hl => ?_, fun hl => ?_⟩, ?_⟩
  · rw [hnone hbare, hl]; rfl
  · rw [hnone hbare, hl]; rfl
  · intro getRuntimePath program seed h hempty
    obtain ⟨_, st, _, _, _, _, _, _, _, _, hm⟩ := New_ok _ _ _ _ h
    cases hbare : i.methods.get t with
    | none => exact hnone hbare
    | some l =>
      rw [hbare] at hempty
      simp only [Option.getD_some] at hempty
      rw [hm] at hbare
      exact absurd hempty (regroup_nonempty _ _ _ hbare)

/-- C4, witness: an index whose only methods are recorded under `*b.Square`. -/
theorem Methods_pointer_fallback_witness :
    (({ heap := [], declarations := [], runtime := [], imports := [], interfaces := [],
        receivers := [], methods := [("*b.Square", [4, 5])] } : Index).Methods "b.Square"
      = [4, 5]) ∧
    (({ heap := [], declarations := [], runtime := [], imports := [], interfaces := [],
        receivers := [], methods := [] } : Index).Methods "b.Square" = []) :=
  ⟨((Methods_pointer_fallback
      { heap := [], declarations := [], runtime := [], imports := [], interfaces := [],
        receivers := [], methods := [("*b.Square", [4, 5])] } "b.Square").1 rfl).1 [4, 5] rfl,
   ((Methods_pointer_fallback
      { heap := [], declarations := [], runtime := [], imports := [], interfaces := [],
        receivers := [], methods := [] } "b.Square").1 rfl).2 rfl⟩

/-! ## Exported flags -/

theorem mem_registrations_func (program : Program) (info : PackageInfo)
    (hinfo : info ∈ program.AllPackages) (file : List Decl) (hfile : file ∈ info.Files)
    (t : FuncDecl) (ht : Decl.FuncDecl t ∈ file) :
    Registered.func info.Path t ∈ registrations program := by
  simp only [registrations, List.mem_flatMap]
  exact ⟨info, hinfo, file, hfile, _, ht, by simp [declRegistrations]⟩

/-- Every registered declaration sits in the store of the built index. -/
theorem deref_of_mem_registrations (getRuntimePath : Except String String) (program : Program)
    (seed : Nat) (idx : Index) (h : New getRuntimePath program seed = .ok idx) (r : Registered)
    (hr : r ∈ registrations program) : ∃ p, idx.deref p = some r.declaration := by
  obtain ⟨hheap, _, _⟩ := New_registrations _ _ _ _ h
  obtain ⟨p, hp⟩ := List.mem_iff_getElem?.mp hr
  refine ⟨p, ?_⟩
  rw [Index.deref, hheap, List.get?_eq_getElem?, List.getElem?_map, hp]
  rfl

/-- Every declaration in the store of the built index was registered. -/
theorem registered_of_deref (getRuntimePath : Except String String) (program : Program)
    (seed : Nat) (idx : Index) (h : New getRuntimePath program seed = .ok idx) (p : Ptr)
    (d : Declaration) (hd : idx.deref p = some d) :
    ∃ r, r ∈ registrations program ∧ r.declaration = d := by
  obtain ⟨hheap, _, _⟩ := New_registrations _ _ _ _ h
  rw [Index.deref, hheap, List.get?_eq_getElem?] at hd
  have hmem : d ∈ (registrations program).map Registered.declaration :=
    List.mem_iff_getElem?.mpr ⟨p, hd⟩
  simpa [List.mem_map] using hmem

/-- C5: on a program that `New` indexes, every function declaration with a
receiver has a registered declaration (its node, package, id and name) whose
`Exported` is false, and every declaration of the index whose node is a
function declaration with a receiver has `Exported` false, whatever the
name's own flag and also for a method named `main`. -/
theorem method_not_exported (getRuntimePath : Except String String) (program : Program)
    (seed : Nat) (idx : Index) (h : New getRuntimePath program seed = .ok idx) :
    (∀ info ∈ program.AllPackages, ∀ file ∈ info.Files, ∀ t, Decl.FuncDecl t ∈ file →
      t.recv ≠ none →
      ∃ p d, idx.deref p = some d ∧ d.Node = .FuncDecl t ∧ d.From = info.Path ∧
        d.ID = t.obj.str ∧ d.Name = t.name ∧ d.Exported = false) ∧
    (∀ p d t, idx.deref p = some d → d.Node = .FuncDecl t → t.recv ≠ none →
      d.Exported = false) := by
  have hexp : ∀ t : FuncDecl, t.recv ≠ none → funcExported t = false := by
    intro t ht
    cases hr : t.recv with
    | none => exact absurd hr ht
    | some ty => simp [funcExported, hr]
  refine ⟨?_, ?_⟩
  · intro info hinfo file hfile t ht hrecv
    obtain ⟨p, hp⟩ := deref_of_mem_registrations _ _ _ _ h _
      (mem_registrations_func program info hinfo file hfile t ht)
    exact ⟨p, _, hp, rfl, rfl, rfl, rfl, hexp t hrecv⟩
  · intro p d t hd hnode hrecv
    obtain ⟨r, _, hr⟩ := registered_of_deref _ _ _ _ h p d hd
    subst hr
    cases r with
    | func packagePath t' =>
      simp only [Registered.declaration, funcDeclaration, Decl.FuncDecl.injEq] at hnode
      subst hnode
      exact hexp _ hrecv
    | value packagePath specs name =>
      simp [Registered.declaration, valueDeclaration] at hnode
    | type packagePath specs name obj typeof type =>
      cases type <;> simp [Registered.declaration, typeDeclaration] at hnode

/-- C5, witness: `Circle.Area` of `shapesProgram`, an exported name. -/
theorem method_not_exported_witness :
    New (.ok "runtime") shapesProgram 0 = .ok shapesIndex ∧
    circleArea.obj.Exported = true ∧
    shapesIndex.deref 2 = some (funcDeclaration "b" (.FuncDecl circleArea) circleArea) ∧
    (funcDeclaration "b" (.FuncDecl circleArea) circleArea).Exported = false :=
  ⟨rfl, rfl, rfl,
    (method_not_exported (.ok "runtime") shapesProgram 0 shapesIndex rfl).2 2
      (funcDeclaration "b" (.FuncDecl circleArea) circleArea) circleArea rfl rfl (by decide)⟩

/-- C6: on a program that `New` indexes, every function declaration without a
receiver has a registered declaration (its node, package, id and name), and
for every declaration of the index whose node is such a function `Exported` is
true when the function is named `main` and the type checker's flag of the
name otherwise. -/
theorem function_exported (getRuntimePath : Except String String) (program : Program)
    (seed : Nat) (idx : Index) (h : New getRuntimePath program seed = .ok idx) :
    (∀ info ∈ program.AllPackages, ∀ file ∈ info.Files, ∀ t, Decl.FuncDecl t ∈ file →
      t.recv = none →
      ∃ p d, idx.deref p = some d ∧ d.Node = .FuncDecl t ∧ d.From = info.Path ∧
        d.ID = t.obj.str ∧ d.Name = t.name) ∧
    (∀ p d t, idx.deref p = some d → d.Node = .FuncDecl t → t.recv = none →
      (t.name = "main" → d.Exported = true) ∧
      (t.name ≠ "main" → d.Exported = t.obj.Exported)) := by
  refine ⟨?_, ?_⟩
  · intro info hinfo file hfile t ht _
    obtain ⟨p, hp⟩ := deref_of_mem_registrations _ _ _ _ h _
      (mem_registrations_func program info hinfo file hfile t ht)
    exact ⟨p, _, hp, rfl, rfl, rfl, rfl⟩
  · intro p d t hd hnode hrecv
    obtain ⟨r, _, hr⟩ := registered_of_deref _ _ _ _ h p d hd
    subst hr
    cases r with
    | func packagePath t' =>
      simp only [Registered.declaration, funcDeclaration, Decl.FuncDecl.injEq] at hnode
      subst hnode
      refine ⟨fun hmain => ?_, fun hmain => ?_⟩
      · simp [Registered.declaration, funcDeclaration, funcExported, hrecv, hmain]
      · simp [Registered.declaration, funcDeclaration, funcExported, hrecv, hmain]
    | value packagePath specs name =>
      simp [Registered.declaration, valueDeclaration] at hnode
    | type packagePath specs name obj typeof type =>
      cases type <;> simp [Registered.declaration, typeDeclaration] at hnode

/-- C6, witness: `main` of `shapesProgram`, whose name is not exported. -/
theorem function_exported_witness :
    New (.ok "runtime") shapesProgram 0 = .ok shapesIndex ∧
    mainFunc.obj.Exported = false ∧
    shapesIndex.deref 6 = some (funcDeclaration "b" (.FuncDecl mainFunc) mainFunc) ∧
    (funcDeclaration "b" (.FuncDecl mainFunc) mainFunc).Exported = true :=
  ⟨rfl, rfl, rfl,
    ((function_exported (.ok "runtime") shapesProgram 0 shapesIndex rfl).2 6
      (funcDeclaration "b" (.FuncDecl mainFunc) mainFunc) mainFunc rfl rfl rfl).1 rfl⟩

/-- C7 (as amended): on a program that `New` indexes, the declaration built
for a type declaration whose body is an interface type has `Exported` false,
whatever the name's own flag. It is what `FindByID` returns for the
declared-name id, and for the static-type string, whenever that key has no
leading `*` and no declaration registered later is stored under it: the two
keys then share this one declaration. -/
theorem interface_not_exported (getRuntimePath : Except String String) (program : Program)
    (seed : Nat) (idx : Index) (h : New getRuntimePath program seed = .ok idx)
    (pre post : List Registered) (packagePath : String) (specs : List Spec) (name : String)
    (obj : Object) (typeof : GoType) (methods : List (List String)) (ifaceType : GoType)
    (hreg : registrations program
      = pre ++ Registered.type packagePath specs name obj typeof
          (.InterfaceType methods ifaceType) :: post) :
    (∃ d, idx.deref pre.length = some d ∧ d.ID = obj.str ∧ d.Name = name ∧
      d.Node = .GenDecl specs ∧ d.Exported = false) ∧
    (stringsTrimLeft obj.str '*' = obj.str → (∀ q ∈ post, obj.str ∉ q.keys) →
      idx.FindByID obj.str = some pre.length) ∧
    (stringsTrimLeft typeof.str '*' = typeof.str → (∀ q ∈ post, typeof.str ∉ q.keys) →
      idx.FindByID typeof.str = some pre.length) := by
  obtain ⟨hheap, hdecl, _⟩ := New_registrations _ _ _ _ h
  rw [hreg] at hheap hdecl
  refine ⟨⟨_, deref_split idx pre post _ hheap, rfl, rfl, rfl, rfl⟩, ?_, ?_⟩
  · intro hstar hlast
    rw [Index.FindByID, hstar, hdecl]
    exact lastWriter_split _ pre post _ (by simp [Registered.keys]) hlast
  · intro hstar hlast
    rw [Index.FindByID, hstar, hdecl]
    exact lastWriter_split _ pre post _ (by simp [Registered.keys]) hlast

/-- C7, witness: the exported interface `Shape` of `shapesProgram`. -/
theorem interface_not_exported_witness :
    New (.ok "runtime") shapesProgram 0 = .ok shapesIndex ∧
    shapeObject.Exported = true ∧
    (∃ d, shapesIndex.deref 0 = some d ∧ d.ID = shapeObject.str ∧ d.Name = "Shape" ∧
      d.Node = .GenDecl shapeSpecs ∧ d.Exported = false) ∧
    shapesIndex.FindByID shapeObject.str = some 0 ∧
    shapesIndex.FindByID "a.Shape" = some 0 :=
  have w := interface_not_exported (.ok "runtime") shapesProgram 0 shapesIndex rfl []
    [Registered.type "b" circleSpecs "Circle"
       { kind := .TypeName, Pkg := some "b", str := "type b.Circle struct\x7b\x7d",
         Exported := true }
       { str := "b.Circle", isInterface := false }
       (.Other { str := "struct\x7b\x7d", isInterface := false }),
     Registered.func "b" circleArea,
     Registered.type "b" squareSpecs "Square"
       { kind := .TypeName, Pkg := some "b", str := "type b.Square struct\x7b\x7d",
         Exported := true }
       { str := "b.Square", isInterface := false }
       (.Other { str := "struct\x7b\x7d", isInterface := false }),
     Registered.func "b" squareSide, Registered.func "b" squareArea,
     Registered.func "b" mainFunc]
    "a" shapeSpecs "Shape" shapeObject { str := "a.Shape", isInterface := false } [["Area"]]
    shapeInterface rfl
  ⟨rfl, rfl, w.1, w.2.1 (by decide) (by decide), w.2.2 (by decide) (by decide)⟩

/-- C7, counterexample: in `shapeAliasProgram` the exported interface `Shape`
is followed by `type Alias = Shape`, whose static type prints as `a.Shape`
too. In the finished index the declaration found under the static-type id of
`Shape` is the one of `Alias`, with `Exported` true. -/
theorem interface_alias_exported :
    New (.ok "runtime") shapeAliasProgram 0 = .ok shapeAliasIndex ∧
    registrations shapeAliasProgram =
      [Registered.type "a" shapeSpecs "Shape" shapeObject
         { str := "a.Shape", isInterface := false } (.InterfaceType [["Area"]] shapeInterface),
       Registered.type "a" shapeAliasSpecs "Alias"
         { kind := .TypeName, Pkg := some "a", str := "type a.Alias = a.Shape",
           Exported := true }
         { str := "a.Shape", isInterface := false }
         (.Other { str := "a.Shape", isInterface := false })] ∧
    shapeAliasIndex.FindByID "a.Shape" = some 1 ∧
    (shapeAliasIndex.deref 1).map (fun d => (d.Name, d.Exported)) = some ("Alias", true) :=
  ⟨rfl, rfl, rfl, rfl⟩

/-! ## Interface definitions -/

/-- C8, the code at the failing input: `NewInterface` on the exported
interface `Shape` succeeds and the definition answers `Exported()` with true. -/
theorem NewInterface_exported_name :
    NewInterface { imports := [] } shapeObject shapeNode
      = .ok
          { exported := true, path := "a", name := "Shape", id := "a Shape",
            index := { imports := [] }, methods := ["Area"], node := shapeNode,
            kind := shapeInterface, processed := false, methodDeps := [], imports := [] } ∧
    ifacedef.Exported
        { exported := true, path := "a", name := "Shape", id := "a Shape",
          index := { imports := [] }, methods := ["Area"], node := shapeNode,
          kind := shapeInterface, processed := false, methodDeps := [], imports := [] }
      = true :=
  ⟨rfl, rfl⟩

/-! ## Imports -/

theorem ImpEff_of_imports_eq (st st' : State) (h : st'.imports = st.imports) :
    ImpEff st [] st' := by
  intro p; simp [importTable, h]

theorem importStep_ImpEff (packagePath : String) (st : State) (name : Option String)
    (pathValue : String) :
    ImpEff st [{ packagePath := packagePath, name := name, pathValue := pathValue }]
      (importStep packagePath st name pathValue) := by
  intro p
  by_cases hp : packagePath = p
  · subst hp
    cases name <;>
      simp [importStep, importTable, Map.get_set, ImportStmt.alias, ImportStmt.depPath]
  · have hp' : p ≠ packagePath := fun h => hp h.symm
    simp [importStep, importTable, Map.get_set, hp, hp']

theorem specStep_ImpEff (packagePath : String) (decl : Decl) (st st' : State) (spec : Spec)
    (h : specStep packagePath decl st spec = .ok st') :
    ImpEff st (specImports packagePath spec) st' := by
  cases spec with
  | ValueSpec names =>
    simp only [specStep, Except.ok.injEq] at h
    subst h
    refine ImpEff_of_imports_eq _ _ ?_
    exact foldl_invariant (fun s : State => s.imports = st.imports) _ names
      (fun s x hs => by simpa [valueStep] using hs) st rfl
  | TypeSpec name obj typeof type =>
    refine ImpEff_of_imports_eq _ _ ?_
    rw [specStep] at h
    cases type with
    | Other ty =>
      simp only [typeStep, Except.ok.injEq] at h
      subst h; rfl
    | InterfaceType ms ity =>
      simp only [typeStep] at h
      split at h
      · simp only [Except.ok.injEq] at h
        subst h; rfl
      · cases h
  | ImportSpec name pathValue =>
    simp only [specStep, Except.ok.injEq] at h
    subst h
    exact importStep_ImpEff _ _ _ _

theorem declStep_ImpEff (runtimePath packagePath : String) (st st' : State) (decl : Decl)
    (h : declStep runtimePath packagePath st decl = .ok st') :
    ImpEff st (declImports packagePath decl) st' := by
  cases decl with
  | FuncDecl t =>
    simp only [declStep, Except.ok.injEq] at h
    subst h
    exact ImpEff_of_imports_eq _ _ rfl
  | GenDecl specs =>
    exact foldlM_log ImpEff ImpEff_nil ImpEff_append _ _ specs
      (fun s x s' _ hx => specStep_ImpEff packagePath _ s s' x hx) st st' h
  | BadDecl a b => cases h

theorem pass_ImpEff (runtimePath : String) (program : Program) (st st' : State)
    (h : program.AllPackages.foldlM
      (fun st info =>
        info.Files.foldlM
          (fun st file => file.foldlM (declStep runtimePath info.Path) st)
          st)
      st = .ok st') :
    ImpEff st (importStatements program) st' := by
  refine foldlM_log ImpEff ImpEff_nil ImpEff_append _ _ _ ?_ st st' h
  intro s info s' _ hinfo
  refine foldlM_log ImpEff ImpEff_nil ImpEff_append _ _ _ ?_ s s' hinfo
  intro s file s' _ hfile
  refine foldlM_log ImpEff ImpEff_nil ImpEff_append _ _ _ ?_ s s' hfile
  intro s decl s' _ hdecl
  exact declStep_ImpEff runtimePath info.Path s s' decl hdecl

/-- The alias table of a package in a built index, read off the program. -/
theorem New_imports (getRuntimePath : Except String String) (program : Program)
    (seed : Nat) (idx : Index) (h : New getRuntimePath program seed = .ok idx) (p : String) :
    idx.Imports p = importTable (importsOf program p) [] := by
  obtain ⟨runtimePath, st, _, hst, _, _, hi, _, _, _, _⟩ := New_ok _ _ _ _ h
  have := pass_ImpEff runtimePath program _ _ hst p
  rw [Index.Imports, hi, this]
  simp [State.empty, Map.get, importsOf]

theorem importTable_get (stmts : List ImportStmt) (tbl : Map String) (a : String) :
    (importTable stmts tbl).get a
      = match stmts.reverse.find? (fun s => s.alias == a) with
        | some s => some s.depPath
        | none => tbl.get a := by
  induction stmts generalizing tbl with
  | nil => simp [importTable]
  | cons s ss ih =>
    have hstep : importTable (s :: ss) tbl = importTable ss (tbl.set s.alias s.depPath) := rfl
    rw [hstep, ih, List.reverse_cons, List.find?_append]
    cases hfind : ss.reverse.find? (fun s => s.alias == a) with
    | some s' => simp
    | none =>
      by_cases hs : s.alias = a
      · simp [Map.get_set, hs]
      · have hs' : a ≠ s.alias := fun h => hs h.symm
        simp [Map.get_set, hs, hs']

theorem Map.keys_set {α : Type} (m : Map α) (k : String) (v : α) :
    (m.set k v).map (fun e => e.1) = k :: (m.map (fun e => e.1)).filter (fun x => x != k) := by
  simp [Map.set, List.filter_map, Function.comp_def]

theorem importTable_keys (stmts : List ImportStmt) (tbl : Map String)
    (hnodup : (tbl.map (fun e => e.1)).Nodup) :
    ((importTable stmts tbl).map (fun e => e.1)).Nodup ∧
    ∀ x, x ∈ (importTable stmts tbl).map (fun e => e.1)
      ↔ x ∈ tbl.map (fun e => e.1) ∨ x ∈ stmts.map ImportStmt.alias := by
  induction stmts generalizing tbl with
  | nil => simp [importTable, hnodup]
  | cons s ss ih =>
    have hstep : importTable (s :: ss) tbl = importTable ss (tbl.set s.alias s.depPath) := rfl
    have hnodup' : ((tbl.set s.alias s.depPath).map (fun e => e.1)).Nodup := by
      rw [Map.keys_set]
      refine List.nodup_cons.mpr ⟨?_, hnodup.filter _⟩
      simp [List.mem_filter]
    obtain ⟨h1, h2⟩ := ih (tbl.set s.alias s.depPath) hnodup'
    rw [hstep]
    refine ⟨h1, fun x => ?_⟩
    rw [h2 x, Map.keys_set]
    by_cases hx : x = s.alias
    · simp [hx]
    · simp [List.mem_filter, hx]

/-- C9 (as amended): on a program that `New` indexes, `Imports(p)` has exactly
one entry per distinct alias among the import statements met in packages of
path `p`, where the alias is the written name or, without one, the last
segment of the path: the number of entries is the number of distinct aliases,
and each alias maps to the path, its double quotes removed, of the
last import statement with that alias. -/
theorem Imports_per_alias (getRuntimePath : Except String String) (program : Program)
    (seed : Nat) (idx : Index) (h : New getRuntimePath program seed = .ok idx) (p : String) :
    (∀ a, (idx.Imports p).get a
      = ((importsOf program p).reverse.find? (fun s => s.alias == a)).map
          (fun s => stringsTrim s.pathValue doubleQuote)) ∧
    (idx.Imports p).length = ((importsOf program p).map ImportStmt.alias).dedup.length := by
  rw [New_imports _ _ _ _ h p]
  refine ⟨fun a => ?_, ?_⟩
  · rw [importTable_get]
    cases (importsOf program p).reverse.find? (fun s => s.alias == a) with
    | some s => rfl
    | none => rfl
  · obtain ⟨h1, h2⟩ := importTable_keys (importsOf program p) [] (by simp)
    have hlen : (importTable (importsOf program p) []).length
        = ((importTable (importsOf program p) []).map (fun e => e.1)).length := by simp
    rw [hlen, ← List.toFinset_card_of_nodup h1, ← List.card_toFinset]
    congr 1
    ext x
    simp only [List.mem_toFinset]
    rw [h2 x]
    simp

/-- C9, witness: package `b` of `shapesProgram` and its one import. -/
theorem Imports_per_alias_witness :
    New (.ok "runtime") shapesProgram 0 = .ok shapesIndex ∧
    (shapesIndex.Imports "b").get "a" = some "example.com/a" ∧
    (shapesIndex.Imports "b").length = 1 :=
  ⟨rfl,
   ((Imports_per_alias (.ok "runtime") shapesProgram 0 shapesIndex rfl "b").1 "a").trans rfl,
   ((Imports_per_alias (.ok "runtime") shapesProgram 0 shapesIndex rfl "b").2).trans
     (by decide)⟩

/-- C9, counterexample: the two files of package `p` of `randProgram` import
`math/rand` and `crypto/rand`, two distinct import statements with the same
last path segment. `Imports(p)` has one entry, `rand` for `crypto/rand`, and
no entry maps to `math/rand`. -/
theorem Imports_same_alias :
    New (.ok "runtime") randProgram 0 = .ok randIndex ∧
    importsOf randProgram "p" =
      [{ packagePath := "p", name := none, pathValue := "\"math/rand\"" },
       { packagePath := "p", name := none, pathValue := "\"crypto/rand\"" }] ∧
    randIndex.Imports "p" = [("rand", "crypto/rand")] ∧
    (randIndex.Imports "p").length = 1 ∧
    (importsOf randProgram "p").dedup.length = 2 :=
  ⟨rfl, rfl, rfl, rfl, by decide⟩

/-! ## Construction errors -/

theorem foldlM_error_of_mem {σ α : Type} (f : σ → α → Except String σ) (l : List α) (x : α)
    (hx : x ∈ l) (hf : ∀ s, ∃ e, f s x = .error e) : ∀ s, ∃ e, l.foldlM f s = .error e := by
  induction l with
  | nil => cases hx
  | cons y l ih =>
    intro s
    rw [List.foldlM_cons]
    cases hy : f s y with
    | error e => exact ⟨e, rfl⟩
    | ok s1 =>
      rcases List.mem_cons.mp hx with hxy | hxl
      · subst hxy
        obtain ⟨e, he⟩ := hf s
        rw [he] at hy
        cases hy
      · exact ih hxl s1

/-- On a program whose names and types all resolve: when some file of some
package holds a top-level declaration that is neither a function declaration
nor a grouped declaration, `New` returns an error and no index, whatever the
place of the offending declaration, the runtime path and the order of the
range. The section on programs loaded with errors drops the proviso on the
names. -/
theorem New_unhandled_declaration (getRuntimePath : Except String String) (program : Program)
    (seed : Nat) (info : PackageInfo) (hinfo : info ∈ program.AllPackages)
    (file : List Decl) (hfile : file ∈ info.Files) (a b : Nat)
    (hbad : Decl.BadDecl a b ∈ file) :
    ∃ msg, New getRuntimePath program seed = .error msg := by
  unfold New
  cases getRuntimePath with
  | error e => exact ⟨e, rfl⟩
  | ok runtimePath =>
    have hpass := foldlM_error_of_mem
      (fun st (info : PackageInfo) =>
        info.Files.foldlM
          (fun st file => file.foldlM (declStep runtimePath info.Path) st)
          st)
      program.AllPackages info hinfo
      (fun s => foldlM_error_of_mem _ info.Files file hfile
        (fun s => foldlM_error_of_mem _ file (Decl.BadDecl a b) hbad
          (fun s => ⟨_, rfl⟩) s) s)
      State.empty
    obtain ⟨e, he⟩ := hpass
    refine ⟨e, ?_⟩
    simp only [bind, Except.bind]
    rw [he]

/-- The case of `badProgram`, whose offending declaration sits between two
declarations the pass handles. -/
theorem New_unhandled_declaration_witness :
    New (.ok "runtime") badProgram 0 = .error "unhandled type *ast.BadDecl" ∧
    ∃ msg, New (.ok "runtime") badProgram 0 = .error msg :=
  ⟨rfl, New_unhandled_declaration (.ok "runtime") badProgram 0
    { Path := "p", Files := [[.FuncDecl mainFunc, .BadDecl 40 52, .GenDecl blankSpecsB]] }
    (by simp [badProgram]) [.FuncDecl mainFunc, .BadDecl 40 52, .GenDecl blankSpecsB]
    (by simp) 40 52 (by simp)⟩

/-! ## Pointer markers and lookups by symbol and node -/

theorem stringsTrimLeft_star (s : String) :
    stringsTrimLeft ("*" ++ s) '*' = stringsTrimLeft s '*' := by
  simp [stringsTrimLeft, List.dropWhile]

/-- C11: for every index and every id `s`, `FindByID` of `*` followed by `s`
returns what `FindByID(s)` returns, whatever keys are registered; so when
both `*T` and `T` are keys of the table the two lookups give the same
declaration, the one stored under `T`. -/
theorem FindByID_pointer_marker (i : Index) (s : String) :
    i.FindByID ("*" ++ s) = i.FindByID s := by
  simp [Index.FindByID, stringsTrimLeft_star]

/-- C15: `FindByObject` returns nothing for the nil object, for an object
without a package, and for an object that is no variable, function, constant
or type name; for every other object it returns exactly `FindByID` of its
canonical string, which `go/types` never leaves empty (an empty string would
read as "no id"). The result is a pointer or its absence, not an error. -/
theorem FindByObject_cases (i : Index) :
    i.FindByObject none = none ∧
    (∀ o : Object, o.Pkg = none → i.FindByObject (some o) = none) ∧
    (∀ o : Object, o.kind ≠ .Var → o.kind ≠ .Func → o.kind ≠ .Const → o.kind ≠ .TypeName →
      i.FindByObject (some o) = none) ∧
    (∀ o : Object, o.Pkg ≠ none →
      (o.kind = .Var ∨ o.kind = .Func ∨ o.kind = .Const ∨ o.kind = .TypeName) →
      o.str ≠ "" → i.FindByObject (some o) = i.FindByID o.str) ∧
    (∀ o : Object, o.str = "" → i.FindByObject (some o) = none) := by
  refine ⟨rfl, ?_, ?_, ?_, ?_⟩
  · intro o hp
    simp [Index.FindByObject, getDependency, hp]
  · intro o h1 h2 h3 h4
    cases hp : o.Pkg with
    | none => simp [Index.FindByObject, getDependency, hp]
    | some p =>
      cases hk : o.kind <;> simp_all [Index.FindByObject, getDependency]
  · intro o hp hk hs
    cases hp' : o.Pkg with
    | none => exact absurd hp' hp
    | some p =>
      have hid : getDependency (some o) = o.str := by
        rcases hk with hk | hk | hk | hk <;> simp [getDependency, hp', hk]
      simp [Index.FindByObject, hid, hs]
  · intro o hs
    have hid : getDependency (some o) = "" := by
      cases hp : o.Pkg with
      | none => simp [getDependency, hp]
      | some p => cases hk : o.kind <;> simp [getDependency, hp, hk, hs]
    simp [Index.FindByObject, hid]

/-- C15, witness: the function object of `main` in `shapesIndex`, and the
package-less builtin `len`. -/
theorem FindByObject_cases_witness :
    shapesIndex.FindByObject (some mainFunc.obj) = some 6 ∧
    shapesIndex.FindByObject
      (some { kind := .Builtin, Pkg := none, str := "builtin len", Exported := false }) = none :=
  ⟨((FindByObject_cases shapesIndex).2.2.2.1 mainFunc.obj (by decide) (Or.inr (Or.inl rfl))
      (by decide)).trans rfl,
   (FindByObject_cases shapesIndex).2.1
     { kind := .Builtin, Pkg := none, str := "builtin len", Exported := false } rfl⟩

/-- C18: for every index and type id `t`, (1) when a list is recorded under
`t`, `Methods(t)` is exactly that list, so a method recorded only under `*t`
is not in it; (2) when nothing is recorded under `*t` nor under `**t`,
`Methods` of `*t` is empty, whatever is recorded under `t`. -/
theorem Methods_one_directional (i : Index) (t : String) :
    (∀ l, i.methods.get t = some l →
      i.Methods t = l ∧
      ∀ p l', i.methods.get ("*" ++ t) = some l' → p ∈ l' → p ∉ l → p ∉ i.Methods t) ∧
    (i.methods.get ("*" ++ t) = none → i.methods.get ("*" ++ ("*" ++ t)) = none →
      i.Methods ("*" ++ t) = []) := by
  refine ⟨fun l hl => ?_, fun h1 h2 => ?_⟩
  · have hm : i.Methods t = l := by simp [Index.Methods, hl]
    exact ⟨hm, fun p l' _ _ hp => by rw [hm]; exact hp⟩
  · simp [Index.Methods, h1, h2]

/-- C18, witness: an index with `Area` (address 5) recorded under `b.Square`
and `Side` (address 4) under `*b.Square`. -/
theorem Methods_one_directional_witness :
    (({ heap := [], declarations := [], runtime := [], imports := [], interfaces := [],
        receivers := [], methods := [("b.Square", [5]), ("*b.Square", [4])] } : Index).Methods
      "b.Square" = [5]) ∧
    (({ heap := [], declarations := [], runtime := [], imports := [], interfaces := [],
        receivers := [], methods := [("b.Square", [5])] } : Index).Methods "*b.Square" = []) :=
  ⟨((Methods_one_directional
      { heap := [], declarations := [], runtime := [], imports := [], interfaces := [],
        receivers := [], methods := [("b.Square", [5]), ("*b.Square", [4])] } "b.Square").1
      [5] rfl).1,
   (Methods_one_directional
      { heap := [], declarations := [], runtime := [], imports := [], interfaces := [],
        receivers := [], methods := [("b.Square", [5])] } "b.Square").2 rfl rfl⟩

/-- C19: `FindByNode` is defined on every node, by recursion on the node: on
an identifier it is `FindByIdent` of it, which is nothing when no symbol is
resolved for the identifier; on `*X` it is `FindByNode(X)`; on `X.Sel` it is
`FindByIdent(Sel)`, whatever `X` is; on every other node it is nothing. -/
theorem FindByNode_cases (i : Index) :
    (∀ t : Ident, i.FindByNode (.Ident t) = i.FindByIdent t) ∧
    (∀ name : String, i.FindByIdent { Name := name, obj := none } = none) ∧
    (∀ t : Ident, ∀ o, t.obj = some o → i.FindByIdent t = i.FindByObject (some o)) ∧
    (∀ X : Node, i.FindByNode (.StarExpr X) = i.FindByNode X) ∧
    (∀ (X : Node) (Sel : Ident), i.FindByNode (.SelectorExpr X Sel) = i.FindByIdent Sel) ∧
    i.FindByNode .Other = none := by
  refine ⟨fun t => ?_, fun name => rfl, fun t o ho => ?_, fun X => ?_, fun X Sel => ?_, ?_⟩
  · rw [Index.FindByNode]
  · simp [Index.FindByIdent, ho]
  · rw [Index.FindByNode]
  · rw [Index.FindByNode, Index.FindByNode]
  · rw [Index.FindByNode]

/-- C19, witness: in `shapesIndex`, the node `*(pkg.main)` resolves to the
declaration of `main`, and a selector of an unresolved identifier to nothing. -/
theorem FindByNode_cases_witness :
    shapesIndex.FindByNode
        (.StarExpr (.SelectorExpr .Other { Name := "main", obj := some mainFunc.obj }))
      = shapesIndex.FindByIdent { Name := "main", obj := some mainFunc.obj } ∧
    shapesIndex.FindByIdent { Name := "main", obj := some mainFunc.obj } = some 6 ∧
    shapesIndex.FindByNode (.SelectorExpr .Other { Name := "x", obj := none }) = none :=
  ⟨((FindByNode_cases shapesIndex).2.2.2.1 _).trans ((FindByNode_cases shapesIndex).2.2.2.2.1 _ _),
   rfl,
   ((FindByNode_cases shapesIndex).2.2.2.2.1 _ _).trans ((FindByNode_cases shapesIndex).2.1 "x")⟩

/-! ## Interface definitions: imports, dependencies, construction -/

theorem insertAt_perm {α : Type} (n : Nat) (x : α) (l : List α) :
    (insertAt n x l).Perm (x :: l) := by
  induction l generalizing n with
  | nil => cases n <;> simp [insertAt]
  | cons y l ih =>
    cases n with
    | zero => simp [insertAt]
    | succ n =>
      simp only [insertAt]
      exact ((ih n).cons y).trans (List.Perm.swap x y l)

theorem rangeOrder_perm {α : Type} (seed : Nat) (l : List α) : (rangeOrder seed l).Perm l := by
  induction l generalizing seed with
  | nil => simp [rangeOrder]
  | cons x l ih =>
    simp only [rangeOrder]
    exact (insertAt_perm _ _ _).trans ((ih _).cons x)

theorem Map.get_eq_none_of_not_mem {α : Type} (m : Map α) (k : String)
    (h : k ∉ m.map (fun e => e.1)) : m.get k = none := by
  induction m with
  | nil => rfl
  | cons e m ih =>
    obtain ⟨a, b⟩ := e
    simp only [List.map_cons, List.mem_cons, not_or] at h
    have hne : (k == a) = false := by simpa using h.1
    simp only [Map.get, List.lookup, hne]
    exact ih h.2

theorem Map.get_eq_some_iff {α : Type} (m : Map α) (hm : (m.map (fun e => e.1)).Nodup)
    (k : String) (v : α) : m.get k = some v ↔ (k, v) ∈ m := by
  induction m with
  | nil => simp [Map.get]
  | cons e m ih =>
    obtain ⟨a, b⟩ := e
    simp only [List.map_cons, List.nodup_cons] at hm
    by_cases hk : k = a
    · subst hk
      have hnot : ∀ v, (k, v) ∉ m := fun v hv => hm.1 (List.mem_map.mpr ⟨(k, v), hv, rfl⟩)
      simp [Map.get, List.lookup, hnot, eq_comm]
    · have hne : (k == a) = false := by simpa using hk
      have := ih hm.2
      simp only [Map.get] at this
      simp [Map.get, List.lookup, hne, this, hk]

theorem Map.get_perm {α : Type} (m m' : Map α) (hm : (m.map (fun e => e.1)).Nodup)
    (hp : m'.Perm m) (k : String) : m'.get k = m.get k := by
  have hm' : (m'.map (fun e => e.1)).Nodup := (hp.map _).nodup_iff.mpr hm
  apply Option.ext
  intro v
  simp only [Option.mem_def]
  rw [Map.get_eq_some_iff m' hm', Map.get_eq_some_iff m hm]
  exact hp.mem_iff

theorem copyInto_get (src : List (String × String)) (hsrc : (src.map (fun e => e.1)).Nodup)
    (dst : Map String) (a : String) :
    (copyInto src dst).get a
      = match Map.get src a with
        | some v => some v
        | none => dst.get a := by
  induction src generalizing dst with
  | nil => simp [copyInto, Map.get]
  | cons e src ih =>
    obtain ⟨k, v⟩ := e
    simp only [List.map_cons, List.nodup_cons] at hsrc
    have hstep : copyInto ((k, v) :: src) dst = copyInto src (dst.set k v) := rfl
    rw [hstep, ih hsrc.2]
    by_cases hk : a = k
    · subst hk
      have hnone : Map.get src a = none := Map.get_eq_none_of_not_mem src a hsrc.1
      rw [hnone]
      simp [Map.get_set, Map.get, List.lookup]
    · have hne : (a == k) = false := by simpa using hk
      have hcons : Map.get ((k, v) :: src) a = Map.get src a := by
        simp [Map.get, List.lookup, hne]
      rw [hcons]
      cases Map.get src a with
      | some w => rfl
      | none => simp [Map.get_set, hk]

/-- C13: for every interface definition `d`, whose local table and whose
package table in the index are Go maps (one entry per alias), and whatever the
orders of the two ranges, `d.Imports()` returns a table in which an alias of
the package table of the index maps to the path the index gives, an alias
found only in the local table maps to the local path, and no other alias is
present; the table is a new one and `d`, its local table included, is as
before. -/
theorem ifacedef_Imports_union (d : ifacedef) (seedLocal seedIndex : Nat)
    (hlocal : (d.imports.map (fun e => e.1)).Nodup)
    (hindex : ((d.index.GetImports d.path).map (fun e => e.1)).Nodup) :
    (∀ a, (d.Imports seedLocal seedIndex).1.get a
      = match (d.index.GetImports d.path).get a with
        | some path => some path
        | none => d.imports.get a) ∧
    (d.Imports seedLocal seedIndex).2 = d := by
  refine ⟨fun a => ?_, rfl⟩
  have h1 : ((rangeOrder seedLocal d.imports).map (fun e => e.1)).Nodup :=
    ((rangeOrder_perm seedLocal d.imports).map _).nodup_iff.mpr hlocal
  have h2 : ((rangeOrder seedIndex (d.index.GetImports d.path)).map (fun e => e.1)).Nodup :=
    ((rangeOrder_perm seedIndex _).map _).nodup_iff.mpr hindex
  simp only [ifacedef.Imports]
  rw [copyInto_get _ h2, copyInto_get _ h1,
    Map.get_perm _ _ hindex (rangeOrder_perm seedIndex _) a,
    Map.get_perm _ _ hlocal (rangeOrder_perm seedLocal _) a]
  cases (d.index.GetImports d.path).get a with
  | some v => rfl
  | none =>
    cases d.imports.get a with
    | some v => rfl
    | none => rfl

/-- C13, witness: `Shape` with a local alias `b` and a local alias `log`, over
an index whose package table has `fmt` and `b`. -/
theorem ifacedef_Imports_union_witness :
    ((({ shapeDef with imports := [("b", "vendor/b"), ("log", "log")] } : ifacedef).Imports 1 1).1.get
        "b" = some "example.com/b") ∧
    ((({ shapeDef with imports := [("b", "vendor/b"), ("log", "log")] } : ifacedef).Imports 1 1).1.get
        "log" = some "log") ∧
    ((({ shapeDef with imports := [("b", "vendor/b"), ("log", "log")] } : ifacedef).Imports 1 1).1.get
        "os" = none) :=
  have w := (ifacedef_Imports_union
    { shapeDef with imports := [("b", "vendor/b"), ("log", "log")] } 1 1 (by decide)
    (by decide)).1
  ⟨(w "b").trans rfl, (w "log").trans rfl, (w "os").trans rfl⟩

/-- C14: for every definition built by `NewInterface`, the first call of
`Dependencies()` returns no dependencies and no error and changes only the
processed flag, which it sets; after any number of further calls the
definition is as the first call left it, and the next call again returns no
dependencies and no error and leaves it so. -/
theorem Dependencies_idempotent (index : DefIndex) (obj : Object) (n : TypeSpecNode)
    (d : ifacedef) (h : NewInterface index obj n = .ok d) :
    d.processed = false ∧
    d.Dependencies = (([], none), { d with processed := true }) ∧
    ∀ k : Nat,
      (fun s : ifacedef => s.Dependencies.2)^[k] { d with processed := true }
        = { d with processed := true } ∧
      ({ d with processed := true } : ifacedef).Dependencies
        = (([], none), { d with processed := true }) := by
  have hd : d.processed = false ∧ ∃ fields typeOf, d.node.Type_ = .InterfaceType fields typeOf := by
    unfold NewInterface at h
    cases hp : obj.Pkg with
    | none => simp [hp] at h
    | some packagePath =>
      simp only [hp] at h
      cases ht : n.Type_ with
      | Other ty => simp [ht] at h
      | InterfaceType fields typeOf =>
        simp only [ht] at h
        split at h
        · simp only [Result.ok.injEq] at h
          subst h
          exact ⟨rfl, fields, typeOf, ht⟩
        · cases h
  obtain ⟨hproc, fields, typeOf, hnode⟩ := hd
  have hlater : ({ d with processed := true } : ifacedef).Dependencies
      = (([], none), { d with processed := true }) := by
    simp [ifacedef.Dependencies]
  refine ⟨hproc, ?_, fun k => ⟨?_, hlater⟩⟩
  · simp [ifacedef.Dependencies, hproc, ifacedef.process, hnode]
  · induction k with
    | zero => rfl
    | succ k ih => rw [Function.iterate_succ_apply', ih, hlater]

/-- C14, witness: the definition of `Shape` built over `shapeDefIndex`. -/
theorem Dependencies_idempotent_witness :
    NewInterface shapeDefIndex shapeObject shapeNode = .ok shapeDef ∧
    shapeDef.Dependencies = (([], none), { shapeDef with processed := true }) ∧
    ({ shapeDef with processed := true } : ifacedef).Dependencies
      = (([], none), { shapeDef with processed := true }) :=
  have w := Dependencies_idempotent shapeDefIndex shapeObject shapeNode shapeDef rfl
  ⟨rfl, w.2.1, (w.2.2 0).2⟩

/-- C16, the code at the failing input: given the type spec of
`type Square struct()`, whose type expression is no interface literal and
whose static type is no interface, `NewInterface` panics in the unchecked
assertion on `n.Type` and returns no error. With an interface literal that
the type checker did not resolve to an interface it does return the error. -/
theorem NewInterface_struct_panics :
    NewInterface shapeDefIndex squareObject squareNode
      = .panic "interface conversion: ast.Expr is not *ast.InterfaceType" ∧
    NewInterface shapeDefIndex squareObject
        { Name := "Square",
          Type_ := .InterfaceType [] { str := "struct\x7b\x7d", isInterface := false } }
      = .error "NewInterface: expected n.Type to be an interface" :=
  ⟨rfl, rfl⟩

/-! ## Construction errors: the messages -/

theorem foldlM_error_cases {σ α : Type} (P : String → Prop) (f : σ → α → Except String σ)
    (l : List α) (hf : ∀ s x e, x ∈ l → f s x = .error e → P e) :
    ∀ s e, l.foldlM f s = .error e → P e := by
  induction l with
  | nil => intro s e h; cases h
  | cons x l ih =>
    intro s e h
    rw [List.foldlM_cons] at h
    cases hx : f s x with
    | error e' =>
      rw [hx] at h
      cases h
      exact hf s x _ (List.mem_cons_self _ _) hx
    | ok s1 =>
      rw [hx] at h
      exact ih (fun s y e hy => hf s y e (List.mem_cons_of_mem _ hy)) s1 e h

theorem declStep_error (runtimePath packagePath : String) (st : State) (decl : Decl)
    (e : String) (h : declStep runtimePath packagePath st decl = .error e) :
    e = "unhandled type *ast.BadDecl" ∨ e = "expected interface type to be gotypes.Interface" := by
  cases decl with
  | FuncDecl t => cases h
  | BadDecl a b =>
    simp only [declStep, Except.error.injEq] at h
    exact Or.inl h.symm
  | GenDecl specs =>
    refine foldlM_error_cases
      (fun e => e = "unhandled type *ast.BadDecl" ∨
        e = "expected interface type to be gotypes.Interface") _ specs ?_ st e h
    intro s spec e _ hs
    cases spec with
    | ValueSpec names => cases hs
    | ImportSpec name pathValue => cases hs
    | TypeSpec name obj typeof type =>
      rw [specStep] at hs
      cases type with
      | Other ty => cases hs
      | InterfaceType ms ity =>
        simp only [typeStep] at hs
        split at hs
        · cases hs
        · simp only [Except.error.injEq] at hs
          exact Or.inr hs.symm

/-- C17 (as amended): every error `New` returns is the error of the runtime
path lookup, or the message `unhandled type *ast.BadDecl` (the kind of the
unhandled declaration, no location), or the message
`expected interface type to be gotypes.Interface` (neither the declaration nor
its location). -/
theorem New_error_messages (getRuntimePath : Except String String) (program : Program)
    (seed : Nat) (msg : String) (h : New getRuntimePath program seed = .error msg) :
    getRuntimePath = .error msg ∨ msg = "unhandled type *ast.BadDecl" ∨
      msg = "expected interface type to be gotypes.Interface" := by
  unfold New at h
  cases hr : getRuntimePath with
  | error e =>
    rw [hr] at h
    simp only [bind, Except.bind, Except.error.injEq] at h
    exact Or.inl (by rw [h])
  | ok runtimePath =>
    rw [hr] at h
    simp only [bind, Except.bind] at h
    split at h
    · rename_i e he
      simp only [Except.error.injEq] at h
      subst h
      refine Or.inr ?_
      refine foldlM_error_cases
        (fun e => e = "unhandled type *ast.BadDecl" ∨
          e = "expected interface type to be gotypes.Interface") _ _ ?_ _ _ he
      intro s info e _ hinfo
      refine foldlM_error_cases
        (fun e => e = "unhandled type *ast.BadDecl" ∨
          e = "expected interface type to be gotypes.Interface") _ _ ?_ s e hinfo
      intro s file e _ hfile
      refine foldlM_error_cases
        (fun e => e = "unhandled type *ast.BadDecl" ∨
          e = "expected interface type to be gotypes.Interface") _ _ ?_ s e hfile
      intro s decl e _ hdecl
      exact declStep_error _ _ _ _ _ hdecl
    · cases h

/-- C17, witness: the error of `badProgram`. -/
theorem New_error_messages_witness :
    New (.ok "runtime") badProgram 0 = .error "unhandled type *ast.BadDecl" ∧
    ((Except.ok "runtime" : Except String String) = .error "unhandled type *ast.BadDecl" ∨
      "unhandled type *ast.BadDecl" = "unhandled type *ast.BadDecl" ∨
      "unhandled type *ast.BadDecl" = "expected interface type to be gotypes.Interface") :=
  ⟨rfl, New_error_messages (.ok "runtime") badProgram 0 "unhandled type *ast.BadDecl" rfl⟩

/-- C17, counterexample: `badProgram` and `badProgramLater` hold the
unhandled declaration at different places and source positions, and `New`
returns the same error for both; `malformedProgramA` and `malformedProgramB`
hold different interface declarations of a non-interface static type at
different places, and `New` returns the same error for both. -/
theorem New_error_without_location :
    New (.ok "runtime") badProgram 0 = .error "unhandled type *ast.BadDecl" ∧
    New (.ok "runtime") badProgramLater 0 = .error "unhandled type *ast.BadDecl" ∧
    New (.ok "runtime") malformedProgramA 0
      = .error "expected interface type to be gotypes.Interface" ∧
    New (.ok "runtime") malformedProgramB 0
      = .error "expected interface type to be gotypes.Interface" :=
  ⟨rfl, rfl, rfl, rfl⟩

/-! ## The methods table -/

theorem RecvEff_nil (st : State) : RecvEff st [] st := by
  refine ⟨by simp, fun h => ⟨h, by simp [List.enumFrom]⟩⟩

theorem RecvEff_append (s1 s2 s3 : State) (l1 l2 : List Registered)
    (h1 : RecvEff s1 l1 s2) (h2 : RecvEff s2 l2 s3) : RecvEff s1 (l1 ++ l2) s3 := by
  obtain ⟨a1, b1⟩ := h1
  obtain ⟨a2, b2⟩ := h2
  refine ⟨by rw [a2, a1, List.length_append]; omega, fun h => ?_⟩
  obtain ⟨n1, p1⟩ := b1 h
  obtain ⟨n2, p2⟩ := b2 n1
  refine ⟨n2, ?_⟩
  rw [List.enumFrom_append, List.filterMap_append, ← List.append_assoc, ← a1]
  exact p2.trans (p1.append_right _)

theorem RecvEff_of_receivers_eq (st st' : State) (regs : List Registered)
    (hlen : st'.heap.length = st.heap.length + regs.length)
    (hrecv : st'.receivers = st.receivers) (hnone : ∀ r ∈ regs, r.recv = none) :
    RecvEff st regs st' := by
  refine ⟨hlen, fun h => ?_⟩
  have hempty : ∀ n, (regs.enumFrom n).filterMap recordedAny = [] := by
    intro n
    rw [List.filterMap_eq_nil_iff]
    intro e he
    have hmem : e.2 ∈ regs := by
      obtain ⟨k, r⟩ := e
      have := (List.mem_enumFrom he).2.2
      simp only at this ⊢
      rw [this]
      exact List.getElem_mem _
    simp [recordedAny, hnone e.2 hmem]
  rw [hrecv, hempty]
  exact ⟨h, by simp⟩

/-- The receivers of a table with one entry per key, the list of `k` taken out first. -/
theorem Map.flatMap_perm_get {α : Type} (m : Map (List α))
    (hm : (m.map (fun e => e.1)).Nodup) (k : String) :
    (m.flatMap (fun e => e.2)).Perm
      ((m.get k).getD [] ++ (m.filter (fun e => e.1 != k)).flatMap (fun e => e.2)) := by
  induction m with
  | nil => simp [Map.get]
  | cons e m ih =>
    obtain ⟨a, v⟩ := e
    simp only [List.map_cons, List.nodup_cons] at hm
    by_cases ha : a = k
    · subst ha
      have hfilter : m.filter (fun e => e.1 != a) = m := by
        rw [List.filter_eq_self]
        intro e he
        have : e.1 ≠ a := fun h => hm.1 (List.mem_map.mpr ⟨e, he, h⟩)
        simpa using this
      simp [Map.get, List.lookup, List.filter_cons, hfilter]
    · have hne : (k == a) = false := by simpa using fun h : k = a => ha h.symm
      have hkeep : (a != k) = true := by simpa using ha
      have hget : Map.get ((a, v) :: m) k = Map.get m k := by
        simp [Map.get, List.lookup, hne]
      rw [hget, List.filter_cons, if_pos hkeep, List.flatMap_cons, List.flatMap_cons]
      exact ((ih hm.2).append_left v).trans (List.perm_append_comm_assoc _ _ _)

theorem funcStep_RecvEff (runtimePath packagePath : String) (t : FuncDecl) (st : State) :
    RecvEff st [Registered.func packagePath t]
      (funcStep runtimePath packagePath (.FuncDecl t) t st) := by
  cases hr : t.recv with
  | none =>
    refine RecvEff_of_receivers_eq _ _ _ (by simp [funcStep]) (by simp [funcStep, hr]) ?_
    intro r hmem
    simp only [List.mem_singleton] at hmem
    subst hmem
    exact hr
  | some ty =>
    refine ⟨by simp [funcStep], fun h => ⟨?_, ?_⟩⟩
    · simp only [funcStep, hr, Map.keys_set]
      refine List.nodup_cons.mpr ⟨?_, h.filter _⟩
      simp [List.mem_filter]
    · have hperm := Map.flatMap_perm_get st.receivers h t.name
      simp only [funcStep, hr, Map.set, List.flatMap_cons, List.enumFrom, List.filterMap_cons,
        recordedAny, Registered.recv, List.filterMap_nil]
      rw [List.append_assoc]
      refine (List.Perm.append_left _ List.perm_append_comm).trans ?_
      rw [← List.append_assoc]
      exact hperm.symm.append_right _

theorem valueStep_RecvEff (packagePath : String) (specs : List Spec) (st : State)
    (name : String × Object) :
    RecvEff st [Registered.value packagePath specs name]
      (valueStep packagePath (.GenDecl specs) st name) :=
  RecvEff_of_receivers_eq _ _ _ (by simp [valueStep]) (by simp [valueStep])
    (by intro r hmem; simp only [List.mem_singleton] at hmem; subst hmem; rfl)

theorem specStep_RecvEff (packagePath : String) (specs : List Spec) (st st' : State)
    (spec : Spec) (h : specStep packagePath (.GenDecl specs) st spec = .ok st') :
    RecvEff st (specRegistrations packagePath specs spec) st' := by
  cases spec with
  | ValueSpec names =>
    simp only [specStep, Except.ok.injEq] at h
    subst h
    have := foldl_log RecvEff RecvEff_nil RecvEff_append (valueStep packagePath (.GenDecl specs))
      (fun name => [Registered.value packagePath specs name]) names
      (fun s x _ => valueStep_RecvEff packagePath specs s x) st
    rw [flatMap_singleton_map] at this
    exact this
  | TypeSpec name obj typeof type =>
    rw [specStep] at h
    refine RecvEff_of_receivers_eq _ _ _ ?_ ?_
      (by intro r hmem; simp only [specRegistrations, List.mem_singleton] at hmem; subst hmem; rfl)
    · cases type with
      | Other ty =>
        simp only [typeStep, Except.ok.injEq] at h
        subst h; simp [specRegistrations]
      | InterfaceType ms ity =>
        simp only [typeStep] at h
        split at h
        · simp only [Except.ok.injEq] at h
          subst h; simp [specRegistrations, unexport_append]
        · cases h
    · cases type with
      | Other ty =>
        simp only [typeStep, Except.ok.injEq] at h
        subst h; rfl
      | InterfaceType ms ity =>
        simp only [typeStep] at h
        split at h
        · simp only [Except.ok.injEq] at h
          subst h; rfl
        · cases h
  | ImportSpec name pathValue =>
    simp only [specStep, Except.ok.injEq] at h
    subst h
    exact RecvEff_of_receivers_eq _ _ _ (by simp [importStep, specRegistrations])
      (by simp [importStep]) (by simp [specRegistrations])

theorem declStep_RecvEff (runtimePath packagePath : String) (st st' : State) (decl : Decl)
    (h : declStep runtimePath packagePath st decl = .ok st') :
    RecvEff st (declRegistrations packagePath decl) st' := by
  cases decl with
  | FuncDecl t =>
    simp only [declStep, Except.ok.injEq] at h
    subst h
    exact funcStep_RecvEff _ _ _ _
  | GenDecl specs =>
    exact foldlM_log RecvEff RecvEff_nil RecvEff_append _ _ specs
      (fun s x s' _ hx => specStep_RecvEff packagePath specs s s' x hx) st st' h
  | BadDecl a b => cases h

theorem pass_RecvEff (runtimePath : String) (program : Program) (st st' : State)
    (h : program.AllPackages.foldlM
      (fun st info =>
        info.Files.foldlM
          (fun st file => file.foldlM (declStep runtimePath info.Path) st)
          st)
      st = .ok st') :
    RecvEff st (registrations program) st' := by
  refine foldlM_log RecvEff RecvEff_nil RecvEff_append _ _ _ ?_ st st' h
  intro s info s' _ hinfo
  refine foldlM_log RecvEff RecvEff_nil RecvEff_append _ _ _ ?_ s s' hinfo
  intro s file s' _ hfile
  refine foldlM_log RecvEff RecvEff_nil RecvEff_append _ _ _ ?_ s s' hfile
  intro s decl s' _ hdecl
  exact declStep_RecvEff runtimePath info.Path s s' decl hdecl

theorem regroup_inner_get (rs : List receiver) (m : Map (List Ptr)) (t : String) :
    ((rs.foldl
        (fun methods recv =>
          methods.set recv.Typ.str (((methods.get recv.Typ.str).getD []) ++ [recv.Function]))
        m).get t).getD []
      = (m.get t).getD [] ++ (rs.filter (fun r => r.Typ.str == t)).map (fun r => r.Function) := by
  induction rs generalizing m with
  | nil => simp
  | cons r rs ih =>
    rw [List.foldl_cons, ih]
    by_cases hr : r.Typ.str = t
    · subst hr
      simp [Map.get_set, List.filter_cons]
    · have ht : t ≠ r.Typ.str := fun h => hr h.symm
      simp [Map.get_set, List.filter_cons, hr, ht]

/-- The list the regrouping loop stores under a receiver-type string. -/
theorem regroup_get (entries : List (String × List receiver)) (t : String) :
    ((regroup entries).get t).getD []
      = ((entries.flatMap (fun e => e.2)).filter (fun r => r.Typ.str == t)).map
          (fun r => r.Function) := by
  have hgen : ∀ m : Map (List Ptr),
      ((entries.foldl
          (fun methods entry =>
            entry.2.foldl
              (fun methods recv =>
                let typeof := recv.Typ.str
                methods.set typeof (((methods.get typeof).getD []) ++ [recv.Function]))
              methods)
          m).get t).getD []
        = (m.get t).getD []
          ++ ((entries.flatMap (fun e => e.2)).filter (fun r => r.Typ.str == t)).map
              (fun r => r.Function) := by
    induction entries with
    | nil => intro m; simp
    | cons e entries ih =>
      intro m
      rw [List.foldl_cons, ih, regroup_inner_get]
      simp [List.flatMap_cons, List.filter_append]
  have := hgen []
  simpa [regroup, Map.get] using this

theorem recordedAny_filter (t : String) (es : List (Nat × Registered)) :
    (((es.filterMap recordedAny).filter (fun r => r.Typ.str == t)).map (fun r => r.Function))
      = (es.filter (fun e => isMethodOn t e.2)).map (fun e => e.1) := by
  induction es with
  | nil => rfl
  | cons e es ih =>
    obtain ⟨k, r⟩ := e
    cases r with
    | func packagePath f =>
      cases hr : f.recv with
      | none =>
        simp [List.filterMap_cons, List.filter_cons, recordedAny, Registered.recv, isMethodOn,
          hr, ih]
      | some ty =>
        by_cases ht : ty.str = t
        · simp [List.filterMap_cons, List.filter_cons, recordedAny, Registered.recv, isMethodOn,
            hr, ih, ht]
        · simp [List.filterMap_cons, List.filter_cons, recordedAny, Registered.recv, isMethodOn,
            hr, ih, ht]
    | value packagePath specs name =>
      simp [List.filterMap_cons, List.filter_cons, recordedAny, Registered.recv, isMethodOn, ih]
    | type packagePath specs name obj typeof type =>
      simp [List.filterMap_cons, List.filter_cons, recordedAny, Registered.recv, isMethodOn, ih]

/-- C12 (as amended): after construction, for every receiver-type string `t`,
the list stored for `t` in the methods table holds exactly the pointers of the
registered methods whose recorded receiver type prints as `t`, each exactly
once; it is a rearrangement of their order in the pass, fixed by the order in
which the range visits the receivers table. -/
theorem methods_regrouped (getRuntimePath : Except String String) (program : Program)
    (seed : Nat) (idx : Index) (h : New getRuntimePath program seed = .ok idx) (t : String) :
    ((idx.methods.get t).getD []).Perm
      (((registrations program).enum.filter (fun e => isMethodOn t e.2)).map (fun e => e.1)) ∧
    ((idx.methods.get t).getD []).Nodup ∧
    ∀ p, p ∈ (idx.methods.get t).getD [] ↔
      ∃ packagePath f recvType,
        (registrations program).get? p = some (Registered.func packagePath f) ∧
        f.recv = some recvType ∧ recvType.str = t := by
  obtain ⟨runtimePath, st, _, hst, _, _, _, _, _, _, hm⟩ := New_ok _ _ _ _ h
  obtain ⟨_, hrecv⟩ := pass_RecvEff runtimePath program _ _ hst
  obtain ⟨_, hperm⟩ := hrecv (by simp [State.empty])
  have hperm' : (st.receivers.flatMap (fun e => e.2)).Perm
      ((registrations program).enum.filterMap recordedAny) := by
    simpa [State.empty, List.enum] using hperm
  have hall : ((rangeOrder seed st.receivers).flatMap (fun e => e.2)).Perm
      ((registrations program).enum.filterMap recordedAny) :=
    ((rangeOrder_perm seed st.receivers).flatMap_right _).trans hperm'
  have hlist : ((idx.methods.get t).getD []).Perm
      (((registrations program).enum.filter (fun e => isMethodOn t e.2)).map (fun e => e.1)) := by
    rw [hm, regroup_get, ← recordedAny_filter]
    exact ((hall.filter _).map _)
  refine ⟨hlist, hlist.nodup_iff.mpr (enum_filter_fst_nodup _ _), fun p => ?_⟩
  rw [hlist.mem_iff]
  simp only [List.mem_map, List.mem_filter]
  constructor
  · rintro ⟨⟨k, r⟩, ⟨hmem, hon⟩, hk⟩
    simp only at hk
    subst hk
    have hget : (registrations program).get? k = some r := by
      have := List.mk_mem_enum_iff_getElem?.mp hmem
      simpa [List.get?_eq_getElem?] using this
    cases r with
    | func packagePath f =>
      cases hr : f.recv with
      | none => simp [isMethodOn, hr] at hon
      | some ty =>
        simp only [isMethodOn, hr, beq_iff_eq] at hon
        exact ⟨packagePath, f, ty, hget, hr, hon⟩
    | value packagePath specs name => simp [isMethodOn] at hon
    | type packagePath specs name obj typeof type => simp [isMethodOn] at hon
  · rintro ⟨packagePath, f, ty, hget, hr, ht⟩
    refine ⟨(p, Registered.func packagePath f), ⟨?_, ?_⟩, rfl⟩
    · rw [List.get?_eq_getElem?] at hget
      exact List.mk_mem_enum_iff_getElem?.mpr hget
    · simp [isMethodOn, hr, ht]

/-- C12, witness: the list of `b.Circle` in `shapesIndex`. -/
theorem methods_regrouped_witness :
    New (.ok "runtime") shapesProgram 0 = .ok shapesIndex ∧
    ((shapesIndex.methods.get "b.Circle").getD []).Perm [2] ∧
    ((shapesIndex.methods.get "b.Square").getD []).Perm [4, 5] :=
  ⟨rfl, (methods_regrouped (.ok "runtime") shapesProgram 0 shapesIndex rfl "b.Circle").1,
   (methods_regrouped (.ok "runtime") shapesProgram 0 shapesIndex rfl "b.Square").1⟩

/-- C12, counterexample: in `shapesProgram` the pass meets `Square.Side`
(address 4) before the `Area` of `Square` (address 5). When the range visits
the receivers table at `Area` before `Side`, the list stored for `b.Square`
is `[5, 4]`: `Area` before `Side`, not the order of the pass. -/
theorem methods_not_in_pass_order :
    New (.ok "runtime") shapesProgram 0 = .ok shapesIndex ∧
    (registrations shapesProgram).get? 4 = some (Registered.func "b" squareSide) ∧
    (registrations shapesProgram).get? 5 = some (Registered.func "b" squareArea) ∧
    shapesIndex.deref 4 = some (funcDeclaration "b" (.FuncDecl squareSide) squareSide) ∧
    shapesIndex.deref 5 = some (funcDeclaration "b" (.FuncDecl squareArea) squareArea) ∧
    shapesIndex.methods.get "b.Square" = some [5, 4] ∧
    shapesIndex.Methods "b.Square" = [5, 4] :=
  ⟨rfl, rfl, rfl, rfl, rfl, rfl, rfl⟩

/-! ## Construction on a program loaded with errors -/

namespace Loaded

theorem foldlR_append {σ α : Type} (f : σ → α → Result σ) (a b : List α) (s : σ) :
    foldlR f s (a ++ b)
      = match foldlR f s a with
        | .ok s1 => foldlR f s1 b
        | .error msg => .error msg
        | .panic msg => .panic msg := by
  induction a generalizing s with
  | nil => rfl
  | cons x a ih =>
    simp only [List.cons_append, foldlR]
    cases f s x with
    | ok s1 => exact ih s1
    | error msg => rfl
    | panic msg => rfl

theorem foldlR_flatMap {σ α β : Type} (f : σ → β → Result σ) (g : α → List β) (l : List α)
    (s : σ) : foldlR f s (l.flatMap g) = foldlR (fun s x => foldlR f s (g x)) s l := by
  induction l generalizing s with
  | nil => rfl
  | cons x l ih =>
    rw [List.flatMap_cons, foldlR_append]
    simp only [foldlR]
    cases foldlR f s (g x) with
    | ok s1 => exact ih s1
    | error msg => rfl
    | panic msg => rfl

theorem foldlR_map {σ α β : Type} (f : σ → β → Result σ) (h : α → β) (l : List α) (s : σ) :
    foldlR f s (l.map h) = foldlR (fun s x => f s (h x)) s l := by
  induction l generalizing s with
  | nil => rfl
  | cons x l ih =>
    simp only [List.map_cons, foldlR]
    cases f s (h x) with
    | ok s1 => exact ih s1
    | error msg => rfl
    | panic msg => rfl

/-- The three nested loops are one loop over the declarations in pass order. -/
theorem pass_eq_passDecls (runtimePath : String) (program : Program) :
    pass runtimePath program
      = foldlR (fun st e => declStep runtimePath e.1 st e.2) State.empty (passDecls program) := by
  unfold pass passDecls
  rw [foldlR_flatMap]
  congr 1
  funext st info
  rw [foldlR_flatMap]
  congr 1
  funext st file
  rw [foldlR_map]

theorem foldlR_not_ok_of_mem {σ α : Type} (f : σ → α → Result σ) (l : List α) (x : α)
    (hx : x ∈ l) (hf : ∀ s s1, f s x ≠ .ok s1) : ∀ s s1, foldlR f s l ≠ .ok s1 := by
  induction l with
  | nil => cases hx
  | cons y l ih =>
    intro s s1
    simp only [foldlR]
    cases hy : f s y with
    | error msg => simp
    | panic msg => simp
    | ok s2 =>
      rcases List.mem_cons.mp hx with hxy | hxl
      · subst hxy
        exact absurd hy (hf s s2)
      · exact ih hxl s2 s1

theorem foldlR_no_panic {σ α : Type} (f : σ → α → Result σ) (l : List α)
    (hf : ∀ x ∈ l, ∀ s msg, f s x ≠ .panic msg) : ∀ s msg, foldlR f s l ≠ .panic msg := by
  induction l with
  | nil => intro s msg h; cases h
  | cons y l ih =>
    intro s msg
    simp only [foldlR]
    cases hy : f s y with
    | error e => simp
    | panic e => exact absurd hy (hf y (List.mem_cons_self _ _) s e)
    | ok s2 => exact ih (fun x hx => hf x (List.mem_cons_of_mem _ hx)) s2 msg

theorem foldlR_error_of_split {σ α : Type} (f : σ → α → Result σ) (pre post : List α) (x : α)
    (hpre : ∀ y ∈ pre, ∀ s msg, f s y ≠ .panic msg) (hx : ∀ s, ∃ msg, f s x = .error msg) :
    ∀ s, ∃ msg, foldlR f s (pre ++ x :: post) = .error msg := by
  intro s
  rw [foldlR_append]
  cases hp : foldlR f s pre with
  | panic msg => exact absurd hp (foldlR_no_panic f pre hpre s msg)
  | error msg => exact ⟨msg, rfl⟩
  | ok s1 =>
    obtain ⟨msg, hmsg⟩ := hx s1
    exact ⟨msg, by simp [foldlR, hmsg]⟩

theorem specStep_no_panic (packagePath : String) (decl : Decl) (spec : Spec)
    (h : spec.resolved = true) (st : State) (msg : String) :
    specStep packagePath decl st spec ≠ .panic msg := by
  cases spec with
  | ValueSpec names =>
    simp only [Spec.resolved, List.all_eq_true] at h
    refine foldlR_no_panic _ names ?_ st msg
    intro name hname s m
    have := h name hname
    cases hobj : name.2 with
    | none => simp [hobj] at this
    | some obj => simp [valueStep, hobj]
  | TypeSpec name obj typeOf type =>
    simp only [Spec.resolved, Bool.and_eq_true] at h
    cases obj with
    | none => simp at h
    | some obj =>
      cases typeOf with
      | none => simp at h
      | some ty =>
        cases type with
        | Other t => simp [specStep, typeStep]
        | InterfaceType ms ity =>
          simp only [specStep, typeStep]
          split <;> simp
  | ImportSpec name pathValue => simp [specStep]

theorem declStep_no_panic (runtimePath packagePath : String) (decl : Decl)
    (h : decl.resolved = true) (st : State) (msg : String) :
    declStep runtimePath packagePath st decl ≠ .panic msg := by
  cases decl with
  | BadDecl a b => simp [declStep]
  | GenDecl specs =>
    simp only [Decl.resolved, List.all_eq_true] at h
    exact foldlR_no_panic _ specs (fun spec hs s m => specStep_no_panic _ _ spec (h spec hs) s m)
      st msg
  | FuncDecl t =>
    simp only [Decl.resolved, Bool.and_eq_true, bne_iff_ne, ne_eq] at h
    cases hobj : t.obj with
    | none => simp [hobj] at h
    | some obj =>
      cases hrecv : t.recv with
      | none => simp [declStep, funcStep, hobj, hrecv]
      | some fields =>
        cases fields with
        | nil => exact absurd hrecv h.2
        | cons ty rest => simp [declStep, funcStep, hobj, hrecv]

theorem mem_passDecls (program : Program) (info : PackageInfo)
    (hinfo : info ∈ program.AllPackages) (file : List Decl) (hfile : file ∈ info.Files)
    (decl : Decl) (hdecl : decl ∈ file) : (info.Path, decl) ∈ passDecls program := by
  simp only [passDecls, List.mem_flatMap, List.mem_map]
  exact ⟨info, hinfo, file, hfile, decl, hdecl, rfl⟩

/-- C10 (as amended): when some file of some package holds a top-level
declaration that is neither a function declaration nor a grouped declaration,
`New` returns no index, whatever the rest of the program and the place of the
offending declaration. It returns a construction error when every
declaration the pass meets before the offending one has its names and types
resolved by the type checker; an unresolved name before it crashes the pass
instead. -/
theorem New_bad_declaration (getRuntimePath : Except String String) (program : Program)
    (seed : Nat) (info : PackageInfo) (hinfo : info ∈ program.AllPackages)
    (file : List Decl) (hfile : file ∈ info.Files) (a b : Nat)
    (hbad : Decl.BadDecl a b ∈ file) :
    (∀ idx, New getRuntimePath program seed ≠ .ok idx) ∧
    (∀ (pre post : List (String × Decl)) (packagePath : String) (From To : Nat),
      passDecls program = pre ++ (packagePath, Decl.BadDecl From To) :: post →
      (∀ e ∈ pre, e.2.resolved = true) →
      ∃ msg, New getRuntimePath program seed = .error msg) := by
  refine ⟨fun idx => ?_, fun pre post packagePath From To hsplit hpre => ?_⟩
  · unfold New
    cases getRuntimePath with
    | error err => simp
    | ok runtimePath =>
      simp only
      cases hp : pass runtimePath program with
      | error msg => simp
      | panic msg => simp
      | ok st =>
        rw [pass_eq_passDecls] at hp
        exact absurd hp
          (foldlR_not_ok_of_mem _ _ _ (mem_passDecls program info hinfo file hfile _ hbad)
            (fun s s1 => by simp [declStep]) _ _)
  · unfold New
    cases getRuntimePath with
    | error err => exact ⟨err, rfl⟩
    | ok runtimePath =>
      simp only
      obtain ⟨msg, hmsg⟩ := foldlR_error_of_split
        (fun st (e : String × Decl) => declStep runtimePath e.1 st e.2) pre post
        (packagePath, Decl.BadDecl From To)
        (fun e he s m => declStep_no_panic _ _ e.2 (hpre e he) s m)
        (fun s => ⟨_, rfl⟩) State.empty
      rw [pass_eq_passDecls, hsplit, hmsg]
      exact ⟨msg, rfl⟩

/-- C10, witness: in `badFirstProgram` the declaration that did not parse
comes after a resolved function and before the unresolved one. -/
theorem New_bad_declaration_witness :
    New (.ok "runtime") badFirstProgram 0 = .error "unhandled type *ast.BadDecl" ∧
    ∃ msg, New (.ok "runtime") badFirstProgram 0 = .error msg :=
  ⟨rfl,
   (New_bad_declaration (.ok "runtime") badFirstProgram 0
      { Path := "p"
        Files :=
          [[.FuncDecl { name := "f", obj := some fObject, params := [], recv := none },
            .BadDecl 40 52],
           [.FuncDecl { name := "f", obj := none, params := [], recv := none }]] }
      (by simp [badFirstProgram])
      [.FuncDecl { name := "f", obj := some fObject, params := [], recv := none }, .BadDecl 40 52]
      (by simp) 40 52 (by simp)).2
      [("p", .FuncDecl { name := "f", obj := some fObject, params := [], recv := none })]
      [("p", .FuncDecl { name := "f", obj := none, params := [], recv := none })]
      "p" 40 52 rfl (by decide)⟩

/-- C10, counterexample: `redeclaredProgram` holds a declaration that did not
parse, after a redeclared function for which the type checker recorded no
object. `New` crashes on that function and returns no error. -/
theorem New_panics_before_bad_declaration :
    passDecls redeclaredProgram =
      [("p", .FuncDecl { name := "f", obj := some fObject, params := [], recv := none }),
       ("p", .FuncDecl { name := "f", obj := none, params := [], recv := none }),
       ("p", .BadDecl 40 52)] ∧
    New (.ok "runtime") redeclaredProgram 0
      = .panic "invalid memory address or nil pointer dereference" :=
  ⟨rfl, rfl⟩

end Loaded

namespace Loaded

/-! ### Agreement with `New` on programs whose names all resolve -/

theorem mapValues_get {α β : Type} (g : α → β) (m : Map α) (k : String) :
    (mapValues g m).get k = (m.get k).map g := by
  induction m with
  | nil => rfl
  | cons e m ih =>
    obtain ⟨a, v⟩ := e
    simp only [mapValues, Map.get, List.map_cons, List.lookup] at ih ⊢
    cases k == a with
    | true => rfl
    | false => exact ih

theorem mapValues_set {α β : Type} (g : α → β) (m : Map α) (k : String) (v : α) :
    (mapValues g m).set k (g v) = mapValues g (m.set k v) := by
  simp [mapValues, Map.set, List.filter_map, Function.comp_def]

theorem foldlR_ofExcept {σ τ α β : Type} (F : τ → β → Result τ) (f : σ → α → Except String σ)
    (e : σ → τ) (h : α → β) (hstep : ∀ s x, F (e s) (h x) = ofExcept e (f s x)) (l : List α) :
    ∀ s, foldlR F (e s) (l.map h) = ofExcept e (l.foldlM f s) := by
  induction l with
  | nil => intro s; rfl
  | cons x l ih =>
    intro s
    simp only [List.map_cons, foldlR, List.foldlM_cons, hstep]
    cases f s x with
    | error msg => rfl
    | ok s1 => exact ih s1

theorem foldlR_ofExcept_pure {σ τ α β : Type} (F : τ → β → Result τ) (f : σ → α → σ)
    (e : σ → τ) (h : α → β) (hstep : ∀ s x, F (e s) (h x) = .ok (e (f s x))) (l : List α) :
    ∀ s, foldlR F (e s) (l.map h) = .ok (e (l.foldl f s)) := by
  induction l with
  | nil => intro s; rfl
  | cons x l ih =>
    intro s
    simp only [List.map_cons, foldlR, List.foldl_cons, hstep]
    exact ih _

theorem funcStep_ofState (runtimePath packagePath : String) (decl : Joy.Decl)
    (t : Joy.FuncDecl) (st : Joy.State) :
    funcStep runtimePath packagePath (ofDecl decl) (ofFuncDecl t) (ofState st)
      = .ok (ofState (Joy.funcStep runtimePath packagePath decl t st)) := by
  cases hr : t.recv with
  | none =>
    simp [funcStep, Joy.funcStep, ofFuncDecl, ofState, hr, ofDeclaration, funcDeclaration,
      funcExported]
  | some ty =>
    have hget : (Option.map (List.map ofReceiver) (st.receivers.get t.name)).getD []
        = List.map ofReceiver ((st.receivers.get t.name).getD []) := by
      cases st.receivers.get t.name <;> rfl
    simp [funcStep, Joy.funcStep, ofFuncDecl, ofState, hr, ofDeclaration, funcDeclaration,
      funcExported, mapValues_get, ← mapValues_set, ofReceiver, hget]

theorem valueStep_ofState (packagePath : String) (decl : Joy.Decl) (st : Joy.State)
    (name : String × Object) :
    valueStep packagePath (ofDecl decl) (ofState st) (name.1, some name.2)
      = .ok (ofState (Joy.valueStep packagePath decl st name)) := by
  simp [valueStep, Joy.valueStep, ofState, ofDeclaration, valueDeclaration]

theorem unexport_map (heap : List Joy.Declaration) (p : Ptr) :
    unexport (heap.map ofDeclaration) p = (Joy.unexport heap p).map ofDeclaration := by
  unfold unexport Joy.unexport
  rw [List.get?_eq_getElem?, List.get?_eq_getElem?, List.getElem?_map]
  cases heap[p]? with
  | none => rfl
  | some d => simp [List.map_set, ofDeclaration]

theorem typeStep_ofState (packagePath : String) (decl : Joy.Decl) (st : Joy.State)
    (name : String) (obj : Object) (typeof : GoType) (type : TypeExpr) :
    typeStep packagePath (ofDecl decl) (ofState st) name (some obj) (some typeof) type
      = ofExcept ofState (Joy.typeStep packagePath decl st name obj typeof type) := by
  cases type with
  | Other ty =>
    simp [typeStep, Joy.typeStep, ofExcept, ofState, ofDeclaration, typeDeclaration]
  | InterfaceType ms ity =>
    have hheap : unexport
        (List.map ofDeclaration st.heap ++
          [{ Exported := obj.Exported, From := packagePath, Name := name, ID := obj.str,
             Node := ofDecl decl, Params := [] }]) st.heap.length
        = (Joy.unexport (st.heap ++ [typeDeclaration packagePath decl name obj])
            st.heap.length).map ofDeclaration := by
      rw [← unexport_map]
      simp [ofDeclaration, typeDeclaration]
    by_cases hi : ity.isInterface = true
    · simp [typeStep, Joy.typeStep, ofExcept, ofState, hi, hheap]
    · simp [typeStep, Joy.typeStep, ofExcept, ofState, hi]

theorem specStep_ofState (packagePath : String) (decl : Joy.Decl) (st : Joy.State)
    (spec : Joy.Spec) :
    specStep packagePath (ofDecl decl) (ofState st) (ofSpec spec)
      = ofExcept ofState (Joy.specStep packagePath decl st spec) := by
  cases spec with
  | ValueSpec names =>
    simp only [specStep, Joy.specStep, ofSpec, ofExcept]
    exact foldlR_ofExcept_pure _ _ ofState (fun name : String × Object => (name.1, some name.2))
      (fun s x => valueStep_ofState packagePath decl s x) names st
  | TypeSpec name obj typeof type => exact typeStep_ofState _ _ _ _ _ _ _
  | ImportSpec name pathValue =>
    simp [specStep, Joy.specStep, ofSpec, ofExcept, importStep, Joy.importStep, ofState]

theorem declStep_ofState (runtimePath packagePath : String) (st : Joy.State)
    (decl : Joy.Decl) :
    declStep runtimePath packagePath (ofState st) (ofDecl decl)
      = ofExcept ofState (Joy.declStep runtimePath packagePath st decl) := by
  cases decl with
  | FuncDecl t => exact funcStep_ofState _ _ _ _ _
  | BadDecl a b => rfl
  | GenDecl specs =>
    exact foldlR_ofExcept _ _ ofState ofSpec
      (fun s x => specStep_ofState packagePath (.GenDecl specs) s x) specs st

theorem pass_ofProgram (runtimePath : String) (program : Joy.Program) :
    pass runtimePath (ofProgram program)
      = ofExcept ofState
          (program.AllPackages.foldlM
            (fun st info =>
              info.Files.foldlM
                (fun st file => file.foldlM (Joy.declStep runtimePath info.Path) st)
                st)
            Joy.State.empty) := by
  have hempty : State.empty = ofState Joy.State.empty := rfl
  unfold pass ofProgram
  rw [hempty]
  refine foldlR_ofExcept _ _ ofState _ ?_ _ _
  intro s info
  refine foldlR_ofExcept _ _ ofState _ ?_ _ _
  intro s file
  exact foldlR_ofExcept _ _ ofState ofDecl
    (fun s x => declStep_ofState runtimePath info.Path s x) file s

theorem insertAt_map {α β : Type} (g : α → β) (n : Nat) (x : α) (l : List α) :
    insertAt n (g x) (l.map g) = (insertAt n x l).map g := by
  induction l generalizing n with
  | nil => cases n <;> rfl
  | cons y l ih =>
    cases n with
    | zero => rfl
    | succ n => simp [insertAt, ih]

theorem rangeOrder_map {α β : Type} (g : α → β) (seed : Nat) (l : List α) :
    rangeOrder seed (l.map g) = (rangeOrder seed l).map g := by
  induction l generalizing seed with
  | nil => rfl
  | cons x l ih => simp [rangeOrder, ih, insertAt_map]

theorem regroup_inner_ofReceiver (rs : List Joy.receiver) (m : Map (List Ptr)) :
    foldlR regroupStep m (rs.map ofReceiver)
      = .ok (rs.foldl
          (fun methods recv =>
            methods.set recv.Typ.str (((methods.get recv.Typ.str).getD []) ++ [recv.Function]))
          m) := by
  induction rs generalizing m with
  | nil => rfl
  | cons r rs ih =>
    simp only [List.map_cons, foldlR, regroupStep, ofReceiver, List.foldl_cons]
    exact ih _

theorem regroup_ofReceiver (entries : List (String × List Joy.receiver)) :
    regroup (mapValues (List.map ofReceiver) entries) = .ok (Joy.regroup entries) := by
  have hgen : ∀ m : Map (List Ptr),
      foldlR (fun methods (entry : String × List receiver) => foldlR regroupStep methods entry.2)
          m (mapValues (List.map ofReceiver) entries)
        = .ok (entries.foldl
            (fun methods entry =>
              entry.2.foldl
                (fun methods recv =>
                  let typeof := recv.Typ.str
                  methods.set typeof (((methods.get typeof).getD []) ++ [recv.Function]))
                methods)
            m) := by
    induction entries with
    | nil => intro m; rfl
    | cons e entries ih =>
      intro m
      simp only [mapValues, List.map_cons, foldlR, regroup_inner_ofReceiver, List.foldl_cons]
      exact ih _
  exact hgen []

/-- On a program whose names and types all resolve, `New` of this section
does what `Joy.New` does: the same index or the same error, and no crash. -/
theorem New_ofProgram (getRuntimePath : Except String String) (program : Joy.Program)
    (seed : Nat) :
    New getRuntimePath (ofProgram program) seed
      = ofExcept ofIndex (Joy.New getRuntimePath program seed) := by
  unfold New Joy.New
  cases getRuntimePath with
  | error err => rfl
  | ok runtimePath =>
    simp only [pass_ofProgram, bind, Except.bind]
    cases program.AllPackages.foldlM
        (fun st info =>
          info.Files.foldlM
            (fun st file => file.foldlM (Joy.declStep runtimePath info.Path) st)
            st)
        Joy.State.empty with
    | error msg => rfl
    | ok st =>
      have hregroup := regroup_ofReceiver (rangeOrder seed st.receivers)
      simp only [mapValues] at hregroup
      simp only [ofExcept, ofState, mapValues, rangeOrder_map, hregroup]
      rfl

end Loaded

end Joy
